import Mathlib

/-!
Verification of the document assembly engine of the student OD-letter
generator (`src/app.py`).  The assembler consumes a flat list of student
records (Python dicts with four mandatory and two optional keys) and emits
a Word document organised as category → year → department, with a table
for first-year students and a tab-stop numbered list for seniors.

Shallow embedding conventions:
* a Python dict field that may be missing is `Option String`
  (`none` = key absent, `some ""` = key present with empty value);
* a `KeyError` raised by `student[k]` is `Except.error` carrying the key;
* the produced docx is abstracted as a `List DocElem` of headings,
  paragraphs (with runs, tab stops and indents) and tables;
* lengths given to python-docx as `Inches(x)` are recorded as
  hundredths of an inch (`Inches(0.5)` ↦ `50`).
-/

namespace OdLetter

/-- RGB color triple, mirroring `docx.shared.RGBColor`. -/
structure RGB where
  r : Nat
  g : Nat
  b : Nat
deriving DecidableEq, Repr

/-- The explicit black override `RGBColor(0, 0, 0)` used throughout `app.py`. -/
def black : RGB := ⟨0, 0, 0⟩

/-- A text run: its text, bold flag, and explicit color override
(`none` means the run would inherit the theme default). -/
structure Run where
  text : String
  bold : Bool
  color : Option RGB
deriving DecidableEq, Repr

/-- Tab stop alignment (`WD_TAB_ALIGNMENT`); `add_tab_stop` defaults to left. -/
inductive TabAlign where
  | left
  | center
deriving DecidableEq, Repr

/-- A paragraph tab stop: position in hundredths of an inch plus alignment. -/
structure TabStop where
  pos : Nat
  align : TabAlign
deriving DecidableEq, Repr

/-- Paragraph format: indents (hundredths of an inch, signed) and tab stops. -/
structure ParagraphFormat where
  left_indent : Int
  first_line_indent : Int
  tab_stops : List TabStop
deriving DecidableEq, Repr

/-- A paragraph: its format and its runs in order. -/
structure Paragraph where
  format : ParagraphFormat
  runs : List Run
deriving DecidableEq, Repr

/-- A table: advisory column widths (hundredths of an inch), the header row
(one run per cell) and the data rows (one run per cell). -/
structure Table where
  col_widths : List Nat
  header : List Run
  rows : List (List Run)
deriving DecidableEq, Repr

/-- One element of the assembled document. -/
inductive DocElem where
  | heading (level : Nat) (run : Run)
  | para (p : Paragraph)
  | table (t : Table)
deriving DecidableEq, Repr

/-- A student record: the four mandatory keys, plus the optional `category`
and `section` keys.  `none` models a key that is absent from the dict. -/
structure Student where
  full_name : Option String
  registration_number : Option String
  department : Option String
  year : Option String
  category : Option String
  section_ : Option String
deriving DecidableEq, Repr

/-- Python `student[k]`: the value when the key is present, `KeyError`
otherwise. -/
def getKey (v : Option String) (k : String) : Except String String :=
  match v with
  | some s => .ok s
  | none => .error ("KeyError: " ++ k)

/-- Read the key `k` (extracted by `f`) of every student in order, failing at
the first record that lacks it — the access pattern of the grouping loops in
`generate_student_document` and of `sorted(students, key=...)`. -/
def getKeys (f : Student → Option String) (k : String) :
    List Student → Except String (List String)
  | [] => .ok []
  | s :: rest => do
    let v ← getKey (f s) k
    let vs ← getKeys f k rest
    .ok (v :: vs)

/-- The `full_name` value of a record whose key is known present. -/
def nameKey (s : Student) : String := s.full_name.getD ""

/-- The `registration_number` value of a record whose key is known present. -/
def regKey (s : Student) : String := s.registration_number.getD ""

/-- The `department` value of a record whose key is known present. -/
def deptKey (s : Student) : String := s.department.getD ""

/-- The `year` value of a record whose key is known present. -/
def yearKey (s : Student) : String := s.year.getD ""

/-- Python `student.get("category", "Uncategorized")`. -/
def categoryOf (s : Student) : String := s.category.getD "Uncategorized"

/-- The three tab stops installed per senior paragraph: `Inches(0.5)` left,
`Inches(3.0)` center, `Inches(4.0)` left (`add_tab_stop`'s default). -/
def seniorTabStops : List TabStop :=
  [⟨50, .left⟩, ⟨300, .center⟩, ⟨400, .left⟩]

/-- Senior paragraph format: `left_indent = Inches(0.5)`,
`first_line_indent = Inches(-0.25)`, the three tab stops. -/
def seniorFormat : ParagraphFormat := ⟨50, -25, seniorTabStops⟩

/-- One iteration of the loop of `add_senior_student_list`: the paragraph of
the `i`-numbered student, three runs each forced to black.  Accesses
`full_name` then `registration_number`, so it raises `KeyError` if either
key is absent. -/
def seniorParagraph (i : Nat) (s : Student) : Except String DocElem := do
  let nm ← getKey s.full_name "full_name"
  let rn ← getKey s.registration_number "registration_number"
  .ok (.para ⟨seniorFormat,
    [⟨toString i ++ ".\t" ++ nm ++ "\t", false, some black⟩,
     ⟨"–", false, some black⟩,
     ⟨"\t" ++ rn, false, some black⟩]⟩)

/-- The paragraphs of `add_senior_student_list` numbered from `i`. -/
def seniorParagraphs (i : Nat) : List Student → Except String (List DocElem)
  | [] => .ok []
  | s :: rest => do
    let p ← seniorParagraph i s
    let ps ← seniorParagraphs (i + 1) rest
    .ok (p :: ps)

/-- `add_senior_student_list(doc, students)`: numbered paragraphs starting
at 1 (`enumerate(students, 1)`). -/
def add_senior_student_list (students : List Student) :
    Except String (List DocElem) :=
  seniorParagraphs 1 students

/-- The explicit column widths of the first-year table, in hundredths of an
inch: `0.1, 2.0, 1.0, 0.1, 1.0` inches. -/
def tableColWidths : List Nat := [10, 200, 100, 10, 100]

/-- Header labels of the first-year table. -/
def tableHeaderTexts : List String :=
  ["S.No.", "Name", "SEC ID", "Section", "Department"]

/-- The header row runs: each label bold and forced to black. -/
def headerRuns : List Run := tableHeaderTexts.map (fun t => ⟨t, true, some black⟩)

/-- The comparison used by `sorted(students, key=lambda s: s['department'])`. -/
def deptLe (a b : Student) : Prop := deptKey a ≤ deptKey b

instance : DecidableRel deptLe :=
  fun a b => inferInstanceAs (Decidable (deptKey a ≤ deptKey b))

instance : IsTotal Student deptLe := ⟨fun a b => le_total (deptKey a) (deptKey b)⟩

instance : IsTrans Student deptLe := ⟨fun _ _ _ h h2 => le_trans h h2⟩

/-- Python's `sorted` by department: a stable sort, embedded as insertion
sort (stable sorts agree as functions). -/
def sortByDept (l : List Student) : List Student := l.insertionSort deptLe

/-- One data row of the first-year table for the `i`-numbered student:
sequence number, full name, registration number, section (placeholder
`N/A` when the key is absent), department — in Python's evaluation order,
raising `KeyError` on a missing mandatory key. -/
def firstYearRow (i : Nat) (s : Student) : Except String (List Run) := do
  let nm ← getKey s.full_name "full_name"
  let rn ← getKey s.registration_number "registration_number"
  let sec := s.section_.getD "N/A"
  let dept ← getKey s.department "department"
  .ok [⟨toString i, false, some black⟩, ⟨nm, false, some black⟩,
       ⟨rn, false, some black⟩, ⟨sec, false, some black⟩,
       ⟨dept, false, some black⟩]

/-- The data rows numbered from `i`. -/
def firstYearRows (i : Nat) : List Student → Except String (List (List Run))
  | [] => .ok []
  | s :: rest => do
    let r ← firstYearRow i s
    let rs ← firstYearRows (i + 1) rest
    .ok (r :: rs)

/-- `add_first_year_table(doc, students)`: nothing when the bucket is empty,
otherwise one table — header row, then one row per student sorted stably by
department, numbered from 1.  `sorted`'s key extraction touches every
record's `department` before any row is built. -/
def add_first_year_table (students : List Student) :
    Except String (List DocElem) :=
  if students.isEmpty then .ok []
  else do
    let _ ← getKeys (fun s => s.department) "department" students
    let rows ← firstYearRows 1 (sortByDept students)
    .ok [.table ⟨tableColWidths, headerRuns, rows⟩]

/-- Append a dict key if new — Python dict insertion order. -/
def insertKey (acc : List String) (k : String) : List String :=
  if k ∈ acc then acc else acc ++ [k]

/-- The keys of a Python dict built by grouping `l` under `f`, in insertion
order (first occurrence order). -/
def dictKeys (f : Student → String) (l : List Student) : List String :=
  l.foldl (fun acc s => insertKey acc (f s)) []

/-- Python `sorted` on strings. -/
def sortStrings (l : List String) : List String :=
  l.insertionSort (fun a b => a ≤ b)

/-- The department sections of a senior year bucket, one heading plus
numbered list per department key, in the given key order. -/
def seniorDeptSections (ylist : List Student) :
    List String → Except String (List DocElem)
  | [] => .ok []
  | d :: rest => do
    let ps ← add_senior_student_list (ylist.filter (fun s => deptKey s == d))
    let more ← seniorDeptSections ylist rest
    .ok (.heading 3 ⟨d, false, some black⟩ :: (ps ++ more))

/-- The senior branch of `generate_student_document`: group the year bucket
by `department` (reading every record's key), then emit the department
sections in `sorted(students_by_dept.keys())` order. -/
def add_senior_sections (ylist : List Student) : Except String (List DocElem) := do
  let _ ← getKeys (fun s => s.department) "department" ylist
  seniorDeptSections ylist (sortStrings (dictKeys deptKey ylist))

/-- The fixed year iteration order. -/
def year_order : List String := ["Fourth", "Third", "Second", "First"]

/-- The fixed category iteration order. -/
def category_order : List String := ["Hostel", "Dayscholar", "Uncategorized"]

/-- The section of one year inside a category bucket: nothing when the year
bucket is empty; otherwise the `"<Year> Year"` level-2 heading followed by
the table (for `First`) or the department sections (otherwise). -/
def yearSection (bucket : List Student) (y : String) :
    Except String (List DocElem) :=
  let ylist := bucket.filter (fun s => yearKey s == y)
  if ylist.isEmpty then .ok []
  else
    (if y == "First" then add_first_year_table ylist
     else add_senior_sections ylist) >>= fun body =>
      .ok (.heading 2 ⟨y ++ " Year", false, some black⟩ :: body)

/-- The year sections of one category bucket, in iteration order. -/
def yearSections (bucket : List Student) :
    List String → Except String (List DocElem)
  | [] => .ok []
  | y :: rest => do
    let es ← yearSection bucket y
    let more ← yearSections bucket rest
    .ok (es ++ more)

/-- The section of one category: nothing when its bucket is empty; otherwise
the level-1 heading (suppressed for `Uncategorized`) and the year sections.
The year-grouping loop reads every bucket record's `year` key up front. -/
def categorySection (students : List Student) (c : String) :
    Except String (List DocElem) :=
  let bucket := students.filter (fun s => categoryOf s == c)
  if bucket.isEmpty then .ok []
  else do
    let _ ← getKeys (fun s => s.year) "year" bucket
    let body ← yearSections bucket year_order
    .ok ((if c == "Uncategorized" then []
          else [.heading 1 ⟨c, false, some black⟩]) ++ body)

/-- The category sections, in iteration order. -/
def categorySections (students : List Student) :
    List String → Except String (List DocElem)
  | [] => .ok []
  | c :: rest => do
    let es ← categorySection students c
    let more ← categorySections students rest
    .ok (es ++ more)

/-- The document title: `doc.add_heading("VOLUNTEERS LIST", 0)` forced to
black. -/
def titleHeading : DocElem := .heading 0 ⟨"VOLUNTEERS LIST", false, some black⟩

/-- `generate_student_document(students)`: the title heading followed by the
category sections in fixed order; `Except.error` models an uncaught
`KeyError` (no partial document escapes the function). -/
def generate_student_document (students : List Student) :
    Except String (List DocElem) := do
  let body ← categorySections students category_order
  .ok (titleHeading :: body)

/-- All runs of a table: header cells then data cells. -/
def Table.allRuns (t : Table) : List Run := t.header ++ t.rows.flatten

/-- All runs of a document element. -/
def DocElem.allRuns : DocElem → List Run
  | .heading _ r => [r]
  | .para p => p.runs
  | .table t => t.allRuns

/-- All runs of a document. -/
def docRuns (doc : List DocElem) : List Run := doc.flatMap DocElem.allRuns

/-- The texts of the headings of a given level, in document order. -/
def headingTextsAt (lvl : Nat) (doc : List DocElem) : List String :=
  doc.filterMap (fun e => match e with
    | .heading l r => if l = lvl then some r.text else none
    | _ => none)

/-- The registration numbers rendered by one element: the third cell of each
table data row, and the third run of a list paragraph with its leading tab
removed. -/
def elemRegnos : DocElem → List String
  | .heading _ _ => []
  | .para p => ((p.runs[2]?).map (fun r => r.text.drop 1)).toList
  | .table t => t.rows.filterMap (fun row => (row[2]?).map Run.text)

/-- All registration numbers rendered in the document, in order. -/
def renderedRegnos (doc : List DocElem) : List String := doc.flatMap elemRegnos

/-- A record carries all four mandatory keys (values may be empty). -/
def mandatoryKeys (s : Student) : Prop :=
  s.full_name.isSome ∧ s.registration_number.isSome ∧
    s.department.isSome ∧ s.year.isSome

instance (s : Student) : Decidable (mandatoryKeys s) :=
  inferInstanceAs (Decidable (_ ∧ _ ∧ _ ∧ _))

/-- The keys a record needs once it reaches row/paragraph rendering. -/
def renderKeys (s : Student) : Prop :=
  s.full_name.isSome ∧ s.registration_number.isSome ∧ s.department.isSome

instance (s : Student) : Decidable (renderKeys s) :=
  inferInstanceAs (Decidable (_ ∧ _ ∧ _))

/-- The keys actually read for one record of a processed category bucket:
`year` always, and the remaining mandatory keys only when the year is one
of the four recognized literals. -/
def keyCond (s : Student) : Prop :=
  s.year.isSome ∧ (yearKey s ∈ year_order → renderKeys s)

instance (s : Student) : Decidable (keyCond s) :=
  inferInstanceAs (Decidable (_ ∧ _))

/-- The exact success condition of `generate_student_document`: `keyCond`
for every record of a processed (recognized-category) bucket. -/
def okCond (l : List Student) : Prop :=
  ∀ s ∈ l, categoryOf s ∈ category_order → keyCond s

instance (l : List Student) : Decidable (okCond l) :=
  List.decidableBAll _ l

/-- Pure image of `seniorParagraph` when both keys are present. -/
def seniorElem (i : Nat) (s : Student) : DocElem :=
  .para ⟨seniorFormat,
    [⟨toString i ++ ".\t" ++ nameKey s ++ "\t", false, some black⟩,
     ⟨"–", false, some black⟩,
     ⟨"\t" ++ regKey s, false, some black⟩]⟩

/-- Pure image of `seniorParagraphs`. -/
def seniorElems (i : Nat) : List Student → List DocElem
  | [] => []
  | s :: rest => seniorElem i s :: seniorElems (i + 1) rest

/-- Pure image of `firstYearRow`. -/
def rowElem (i : Nat) (s : Student) : List Run :=
  [⟨toString i, false, some black⟩, ⟨nameKey s, false, some black⟩,
   ⟨regKey s, false, some black⟩, ⟨s.section_.getD "N/A", false, some black⟩,
   ⟨deptKey s, false, some black⟩]

/-- Pure image of `firstYearRows`. -/
def rowElems (i : Nat) : List Student → List (List Run)
  | [] => []
  | s :: rest => rowElem i s :: rowElems (i + 1) rest

/-- Pure image of the first-year table. -/
def tableOf (l : List Student) : Table :=
  ⟨tableColWidths, headerRuns, rowElems 1 (sortByDept l)⟩

/-- Pure image of `add_first_year_table`. -/
def tableSection (l : List Student) : List DocElem :=
  if l.isEmpty then [] else [.table (tableOf l)]

/-- Pure image of `seniorDeptSections`. -/
def deptSections (ylist : List Student) : List String → List DocElem
  | [] => []
  | d :: rest => .heading 3 ⟨d, false, some black⟩ ::
      (seniorElems 1 (ylist.filter (fun s => deptKey s == d)) ++
        deptSections ylist rest)

/-- Pure image of `add_senior_sections`. -/
def seniorSection (ylist : List Student) : List DocElem :=
  deptSections ylist (sortStrings (dictKeys deptKey ylist))

/-- Pure image of `yearSection`. -/
def yearSectionPure (bucket : List Student) (y : String) : List DocElem :=
  let ylist := bucket.filter (fun s => yearKey s == y)
  if ylist.isEmpty then []
  else .heading 2 ⟨y ++ " Year", false, some black⟩ ::
    (if y == "First" then tableSection ylist else seniorSection ylist)

/-- Pure image of `yearSections`. -/
def yearSectionsPure (bucket : List Student) (ys : List String) : List DocElem :=
  ys.flatMap (yearSectionPure bucket)

/-- Pure image of `categorySection`. -/
def categorySectionPure (l : List Student) (c : String) : List DocElem :=
  let bucket := l.filter (fun s => categoryOf s == c)
  if bucket.isEmpty then []
  else (if c == "Uncategorized" then []
        else [.heading 1 ⟨c, false, some black⟩]) ++
    yearSectionsPure bucket year_order

/-- Pure image of the whole assembled document. -/
def assembled (l : List Student) : List DocElem :=
  titleHeading :: category_order.flatMap (categorySectionPure l)

/-- Decomposition of a successful `Except` bind. -/
theorem except_bind_ok {α β : Type} {e : Except String α}
    {f : α → Except String β} {b : β} :
    (e >>= f) = .ok b ↔ ∃ a, e = .ok a ∧ f a = .ok b := by
  cases e with
  | error m => simp [Bind.bind, Except.bind]
  | ok a => simp [Bind.bind, Except.bind]

/-- Reading a present key yields its value. -/
theorem getKey_isSome {v : Option String} (k : String) (h : v.isSome) :
    getKey v k = .ok (v.getD "") := by
  cases v with
  | none => simp at h
  | some x => rfl

/-- A successful key read means the key was present. -/
theorem isSome_of_getKey_ok {v : Option String} {k x : String}
    (h : getKey v k = .ok x) : v.isSome := by
  cases v with
  | none => simp [getKey] at h
  | some y => rfl

/-- `getKeys` succeeds on a list of records that all carry the key. -/
theorem getKeys_ok_of {f : Student → Option String} {k : String}
    {l : List Student} (h : ∀ s ∈ l, (f s).isSome) :
    getKeys f k l = .ok (l.map (fun s => (f s).getD "")) := by
  induction l with
  | nil => rfl
  | cons s rest ih =>
    simp only [getKeys, getKey_isSome k (h s (by simp)),
      ih (fun t ht => h t (by simp [ht])), List.map]
    rfl

/-- A successful `getKeys` means every record carries the key. -/
theorem getKeys_keys {f : Student → Option String} {k : String}
    {l : List Student} :
    ∀ {vs}, getKeys f k l = .ok vs → ∀ s ∈ l, (f s).isSome := by
  induction l with
  | nil => intro vs _ s hs; simp at hs
  | cons t rest ih =>
    intro vs hvs s hs
    rw [getKeys] at hvs
    rcases except_bind_ok.mp hvs with ⟨v, hv, h2⟩
    rcases except_bind_ok.mp h2 with ⟨vs', hvs', _⟩
    rcases List.mem_cons.mp hs with rfl | hmem
    · exact isSome_of_getKey_ok hv
    · exact ih hvs' s hmem

/-- `getKeys` succeeds exactly when every record carries the key. -/
theorem getKeys_ok_iff {f : Student → Option String} {k : String}
    {l : List Student} :
    (∃ vs, getKeys f k l = .ok vs) ↔ ∀ s ∈ l, (f s).isSome := by
  constructor
  · rintro ⟨vs, hvs⟩
    exact getKeys_keys hvs
  · intro h
    exact ⟨_, getKeys_ok_of h⟩

/-- `seniorParagraph` succeeds on present keys, yielding its pure image. -/
theorem seniorParagraph_ok {i : Nat} {s : Student}
    (h1 : s.full_name.isSome) (h2 : s.registration_number.isSome) :
    seniorParagraph i s = .ok (seniorElem i s) := by
  simp only [seniorParagraph, getKey_isSome _ h1, getKey_isSome _ h2]
  rfl

/-- `seniorParagraph` succeeds exactly when name and number are present. -/
theorem seniorParagraph_ok_iff {i : Nat} {s : Student} :
    (∃ e, seniorParagraph i s = .ok e) ↔
      s.full_name.isSome ∧ s.registration_number.isSome := by
  constructor
  · rintro ⟨e, he⟩
    rw [seniorParagraph] at he
    rcases except_bind_ok.mp he with ⟨nm, hnm, h2⟩
    rcases except_bind_ok.mp h2 with ⟨rn, hrn, _⟩
    exact ⟨isSome_of_getKey_ok hnm, isSome_of_getKey_ok hrn⟩
  · rintro ⟨h1, h2⟩
    exact ⟨_, seniorParagraph_ok h1 h2⟩

/-- `seniorParagraphs` succeeds on present keys, yielding its pure image. -/
theorem seniorParagraphs_ok {l : List Student}
    (h : ∀ s ∈ l, s.full_name.isSome ∧ s.registration_number.isSome)
    (i : Nat) : seniorParagraphs i l = .ok (seniorElems i l) := by
  induction l generalizing i with
  | nil => rfl
  | cons s rest ih =>
    have hs := h s (by simp)
    simp only [seniorParagraphs, seniorParagraph_ok hs.1 hs.2,
      ih (fun t ht => h t (by simp [ht])), seniorElems]
    rfl

/-- `seniorParagraphs` succeeds exactly when all names and numbers are
present. -/
theorem seniorParagraphs_keys {l : List Student} :
    ∀ {i es}, seniorParagraphs i l = .ok es →
      ∀ s ∈ l, s.full_name.isSome ∧ s.registration_number.isSome := by
  induction l with
  | nil => intro i es _ s hs; simp at hs
  | cons t rest ih =>
    intro i es hes s hs
    rw [seniorParagraphs] at hes
    rcases except_bind_ok.mp hes with ⟨e, he, h2⟩
    rcases except_bind_ok.mp h2 with ⟨es', hes', _⟩
    rcases List.mem_cons.mp hs with rfl | hmem
    · exact seniorParagraph_ok_iff.mp ⟨e, he⟩
    · exact ih hes' s hmem

/-- `seniorParagraphs` succeeds exactly when all names and numbers are
present (whatever the starting index). -/
theorem seniorParagraphs_ok_iff {l : List Student} {i : Nat} :
    (∃ es, seniorParagraphs i l = .ok es) ↔
      ∀ s ∈ l, s.full_name.isSome ∧ s.registration_number.isSome := by
  constructor
  · rintro ⟨es, hes⟩
    exact seniorParagraphs_keys hes
  · intro h
    exact ⟨_, seniorParagraphs_ok h i⟩

/-- `firstYearRow` succeeds on present keys, yielding its pure image. -/
theorem firstYearRow_ok {i : Nat} {s : Student} (h : renderKeys s) :
    firstYearRow i s = .ok (rowElem i s) := by
  simp only [firstYearRow, getKey_isSome _ h.1, getKey_isSome _ h.2.1,
    getKey_isSome _ h.2.2]
  rfl

/-- `firstYearRow` succeeds exactly when the three rendered mandatory keys
are present. -/
theorem firstYearRow_ok_iff {i : Nat} {s : Student} :
    (∃ r, firstYearRow i s = .ok r) ↔ renderKeys s := by
  constructor
  · rintro ⟨r, hr⟩
    rw [firstYearRow] at hr
    rcases except_bind_ok.mp hr with ⟨nm, hnm, h2⟩
    rcases except_bind_ok.mp h2 with ⟨rn, hrn, h3⟩
    rcases except_bind_ok.mp h3 with ⟨dp, hdp, _⟩
    exact ⟨isSome_of_getKey_ok hnm, isSome_of_getKey_ok hrn,
      isSome_of_getKey_ok hdp⟩
  · intro h
    exact ⟨_, firstYearRow_ok h⟩

/-- `firstYearRows` succeeds on present keys, yielding its pure image. -/
theorem firstYearRows_ok {l : List Student} (h : ∀ s ∈ l, renderKeys s)
    (i : Nat) : firstYearRows i l = .ok (rowElems i l) := by
  induction l generalizing i with
  | nil => rfl
  | cons s rest ih =>
    simp only [firstYearRows, firstYearRow_ok (h s (by simp)),
      ih (fun t ht => h t (by simp [ht])), rowElems]
    rfl

/-- `firstYearRows` succeeds exactly when every record carries the three
rendered keys. -/
theorem firstYearRows_keys {l : List Student} :
    ∀ {i rs}, firstYearRows i l = .ok rs → ∀ s ∈ l, renderKeys s := by
  induction l with
  | nil => intro i rs _ s hs; simp at hs
  | cons t rest ih =>
    intro i rs hrs s hs
    rw [firstYearRows] at hrs
    rcases except_bind_ok.mp hrs with ⟨r, hr, h2⟩
    rcases except_bind_ok.mp h2 with ⟨rs', hrs', _⟩
    rcases List.mem_cons.mp hs with rfl | hmem
    · exact firstYearRow_ok_iff.mp ⟨r, hr⟩
    · exact ih hrs' s hmem

/-- `firstYearRows` succeeds exactly when every record carries the three
rendered keys (whatever the starting index). -/
theorem firstYearRows_ok_iff {l : List Student} {i : Nat} :
    (∃ rs, firstYearRows i l = .ok rs) ↔ ∀ s ∈ l, renderKeys s := by
  constructor
  · rintro ⟨rs, hrs⟩
    exact firstYearRows_keys hrs
  · intro h
    exact ⟨_, firstYearRows_ok h i⟩

/-- Membership in `insertKey`. -/
theorem mem_insertKey {acc : List String} {k k' : String} :
    k ∈ insertKey acc k' ↔ k ∈ acc ∨ k = k' := by
  by_cases h : k' ∈ acc <;> simp [insertKey, h]
  exact fun he => he ▸ h

/-- `insertKey` preserves distinctness. -/
theorem nodup_insertKey {acc : List String} (h : acc.Nodup) (k : String) :
    (insertKey acc k).Nodup := by
  by_cases hk : k ∈ acc <;> simp [insertKey, hk, h, List.nodup_append]

/-- Membership in the fold building a dict's key list. -/
theorem mem_foldl_insertKey (f : Student → String) (l : List Student) :
    ∀ (acc : List String) (k : String),
      (k ∈ l.foldl (fun acc s => insertKey acc (f s)) acc ↔
        k ∈ acc ∨ ∃ s ∈ l, f s = k) := by
  induction l with
  | nil => simp
  | cons t rest ih =>
    intro acc k
    rw [List.foldl_cons, ih, mem_insertKey]
    constructor
    · rintro ((h | h) | ⟨s, hs, rfl⟩)
      · exact Or.inl h
      · exact Or.inr ⟨t, by simp, h.symm⟩
      · exact Or.inr ⟨s, by simp [hs], rfl⟩
    · rintro (h | ⟨s, hs, rfl⟩)
      · exact Or.inl (Or.inl h)
      · rcases List.mem_cons.mp hs with rfl | hmem
        · exact Or.inl (Or.inr rfl)
        · exact Or.inr ⟨s, hmem, rfl⟩

/-- The fold building a dict's key list preserves distinctness. -/
theorem nodup_foldl_insertKey (f : Student → String) (l : List Student) :
    ∀ (acc : List String), acc.Nodup →
      (l.foldl (fun acc s => insertKey acc (f s)) acc).Nodup := by
  induction l with
  | nil => intro acc h; simpa using h
  | cons t rest ih =>
    intro acc h
    rw [List.foldl_cons]
    exact ih _ (nodup_insertKey h _)

/-- The key list of a grouping dict holds exactly the values taken. -/
theorem mem_dictKeys {f : Student → String} {l : List Student} {k : String} :
    k ∈ dictKeys f l ↔ ∃ s ∈ l, f s = k := by
  simp [dictKeys, mem_foldl_insertKey]

/-- The key list of a grouping dict is duplicate-free. -/
theorem nodup_dictKeys (f : Student → String) (l : List Student) :
    (dictKeys f l).Nodup :=
  nodup_foldl_insertKey f l [] List.nodup_nil

/-- Sorting strings preserves membership. -/
theorem mem_sortStrings {l : List String} {k : String} :
    k ∈ sortStrings l ↔ k ∈ l :=
  List.mem_insertionSort _

/-- Sorting strings preserves distinctness. -/
theorem nodup_sortStrings {l : List String} (h : l.Nodup) :
    (sortStrings l).Nodup :=
  ((List.perm_insertionSort _ l).nodup_iff).mpr h

/-- Sorting strings sorts. -/
theorem sorted_sortStrings (l : List String) :
    (sortStrings l).Sorted (fun a b => a ≤ b) :=
  List.sorted_insertionSort _ l

/-- `add_senior_student_list` succeeds on present keys. -/
theorem add_senior_student_list_ok {l : List Student}
    (h : ∀ s ∈ l, s.full_name.isSome ∧ s.registration_number.isSome) :
    add_senior_student_list l = .ok (seniorElems 1 l) :=
  seniorParagraphs_ok h 1

/-- `add_first_year_table` succeeds on present keys, yielding its pure
image. -/
theorem add_first_year_table_ok {l : List Student}
    (h : ∀ s ∈ l, renderKeys s) :
    add_first_year_table l = .ok (tableSection l) := by
  by_cases he : l.isEmpty
  · simp [add_first_year_table, tableSection, he]
  · have hd : ∀ s ∈ l, s.department.isSome := fun s hs => (h s hs).2.2
    have hsorted : ∀ s ∈ sortByDept l, renderKeys s := fun s hs =>
      h s ((List.mem_insertionSort _).mp hs)
    simp only [add_first_year_table, tableSection, he, if_false,
      getKeys_ok_of hd, firstYearRows_ok hsorted 1, tableOf]
    rfl

/-- `add_first_year_table` succeeds exactly when every record carries the
three rendered keys. -/
theorem add_first_year_table_ok_iff {l : List Student} :
    (∃ es, add_first_year_table l = .ok es) ↔ ∀ s ∈ l, renderKeys s := by
  constructor
  · rintro ⟨es, hes⟩ s hs
    by_cases he : l.isEmpty
    · rw [List.isEmpty_iff] at he
      subst he; simp at hs
    · rw [add_first_year_table, if_neg he] at hes
      rcases except_bind_ok.mp hes with ⟨vs, _, h2⟩
      rcases except_bind_ok.mp h2 with ⟨rs, hrs, _⟩
      exact firstYearRows_keys hrs s ((List.mem_insertionSort _).mpr hs)
  · intro h
    exact ⟨_, add_first_year_table_ok h⟩

/-- `seniorDeptSections` succeeds on present keys, yielding its pure
image. -/
theorem seniorDeptSections_ok {ylist : List Student}
    (h : ∀ s ∈ ylist, s.full_name.isSome ∧ s.registration_number.isSome) :
    ∀ keys, seniorDeptSections ylist keys = .ok (deptSections ylist keys) := by
  intro keys
  induction keys with
  | nil => rfl
  | cons d rest ih =>
    have hf : ∀ s ∈ ylist.filter (fun s => deptKey s == d),
        s.full_name.isSome ∧ s.registration_number.isSome := fun s hs =>
      h s (List.mem_of_mem_filter hs)
    simp only [seniorDeptSections, add_senior_student_list_ok hf, ih,
      deptSections]
    rfl

/-- A successful `seniorDeptSections` means every listed record of every
key's bucket had name and number. -/
theorem seniorDeptSections_keys {ylist : List Student} :
    ∀ {keys es}, seniorDeptSections ylist keys = .ok es →
      ∀ d ∈ keys, ∀ s ∈ ylist.filter (fun s => deptKey s == d),
        s.full_name.isSome ∧ s.registration_number.isSome := by
  intro keys
  induction keys with
  | nil => intro es _ d hd; simp at hd
  | cons d' rest ih =>
    intro es hes d hd s hs
    rw [seniorDeptSections] at hes
    rcases except_bind_ok.mp hes with ⟨ps, hps, h2⟩
    rcases except_bind_ok.mp h2 with ⟨more, hmore, _⟩
    rcases List.mem_cons.mp hd with rfl | hmem
    · exact seniorParagraphs_keys hps s hs
    · exact ih hmore d hmem s hs

/-- `add_senior_sections` succeeds on present keys, yielding its pure
image. -/
theorem add_senior_sections_ok {ylist : List Student}
    (h : ∀ s ∈ ylist, renderKeys s) :
    add_senior_sections ylist = .ok (seniorSection ylist) := by
  have hd : ∀ s ∈ ylist, s.department.isSome := fun s hs => (h s hs).2.2
  have hnr : ∀ s ∈ ylist, s.full_name.isSome ∧ s.registration_number.isSome :=
    fun s hs => ⟨(h s hs).1, (h s hs).2.1⟩
  simp only [add_senior_sections, getKeys_ok_of hd,
    seniorDeptSections_ok hnr, seniorSection]
  rfl

/-- `add_senior_sections` succeeds exactly when every record carries the
three rendered keys. -/
theorem add_senior_sections_ok_iff {ylist : List Student} :
    (∃ es, add_senior_sections ylist = .ok es) ↔
      ∀ s ∈ ylist, renderKeys s := by
  constructor
  · rintro ⟨es, hes⟩ s hs
    rw [add_senior_sections] at hes
    rcases except_bind_ok.mp hes with ⟨vs, hvs, h2⟩
    have hd := getKeys_keys hvs s hs
    have hmemd : deptKey s ∈ sortStrings (dictKeys deptKey ylist) :=
      mem_sortStrings.mpr (mem_dictKeys.mpr ⟨s, hs, rfl⟩)
    have hsf : s ∈ ylist.filter (fun t => deptKey t == deptKey s) := by
      simp [List.mem_filter, hs]
    have := seniorDeptSections_keys h2 (deptKey s) hmemd s hsf
    exact ⟨this.1, this.2, hd⟩
  · intro h
    exact ⟨_, add_senior_sections_ok h⟩

/-- `yearSection` succeeds when the year bucket's records carry the
rendered keys, yielding its pure image. -/
theorem yearSection_ok {bucket : List Student} {y : String}
    (hr : ∀ s ∈ bucket.filter (fun s => yearKey s == y), renderKeys s) :
    yearSection bucket y = .ok (yearSectionPure bucket y) := by
  rw [yearSection, yearSectionPure]
  by_cases he : (bucket.filter (fun s => yearKey s == y)).isEmpty
  · rw [if_pos he, if_pos he]
  · rw [if_neg he, if_neg he]
    by_cases hf : y = "First"
    · subst hf
      rw [if_pos (by simp), if_pos (by simp), add_first_year_table_ok hr]
      rfl
    · rw [if_neg (by simp [hf]), if_neg (by simp [hf]),
        add_senior_sections_ok hr]
      rfl

/-- `yearSection` succeeds exactly when the year bucket's records carry the
rendered keys. -/
theorem yearSection_ok_iff {bucket : List Student} {y : String} :
    (∃ es, yearSection bucket y = .ok es) ↔
      ∀ s ∈ bucket, yearKey s = y → renderKeys s := by
  constructor
  · rintro ⟨es, hes⟩ s hs hy
    rw [yearSection] at hes
    by_cases he : (bucket.filter (fun s => yearKey s == y)).isEmpty
    · rw [List.isEmpty_iff] at he
      have : s ∈ bucket.filter (fun s => yearKey s == y) := by
        simp [List.mem_filter, hs, hy]
      rw [he] at this
      simp at this
    · have hsf : s ∈ bucket.filter (fun s => yearKey s == y) := by
        simp [List.mem_filter, hs, hy]
      rw [if_neg he] at hes
      rcases except_bind_ok.mp hes with ⟨body, hbody, _⟩
      by_cases hf : y = "First"
      · rw [if_pos (by simp [hf])] at hbody
        exact add_first_year_table_ok_iff.mp ⟨body, hbody⟩ s hsf
      · rw [if_neg (by simp [hf])] at hbody
        exact add_senior_sections_ok_iff.mp ⟨body, hbody⟩ s hsf
  · intro h
    refine ⟨_, yearSection_ok ?_⟩
    intro s hs
    exact h s (List.mem_of_mem_filter hs)
      (by simpa using List.of_mem_filter hs)

/-- `yearSections` succeeds when every listed-year record carries the
rendered keys, yielding its pure image. -/
theorem yearSections_ok {bucket : List Student} :
    ∀ {ys : List String},
      (∀ s ∈ bucket, yearKey s ∈ ys → renderKeys s) →
      yearSections bucket ys = .ok (yearSectionsPure bucket ys) := by
  intro ys
  induction ys with
  | nil => intro _; rfl
  | cons y rest ih =>
    intro h
    have h1 : ∀ s ∈ bucket.filter (fun s => yearKey s == y), renderKeys s := by
      intro s hs
      exact h s (List.mem_of_mem_filter hs)
        (by simp [(by simpa using List.of_mem_filter hs : yearKey s = y)])
    have h2 := ih (fun s hs hmem => h s hs (by simp [hmem]))
    simp only [yearSections, yearSection_ok h1, h2, yearSectionsPure,
      List.flatMap_cons]
    rfl

/-- `yearSections` succeeds exactly when every listed-year record carries
the rendered keys. -/
theorem yearSections_ok_iff {bucket : List Student} {ys : List String} :
    (∃ es, yearSections bucket ys = .ok es) ↔
      ∀ s ∈ bucket, yearKey s ∈ ys → renderKeys s := by
  constructor
  · intro hex
    induction ys with
    | nil => intro s _ hy; simp at hy
    | cons y rest ih =>
      rcases hex with ⟨es, hes⟩
      rw [yearSections] at hes
      rcases except_bind_ok.mp hes with ⟨e1, he1, h2⟩
      rcases except_bind_ok.mp h2 with ⟨e2, he2, _⟩
      intro s hs hy
      rcases List.mem_cons.mp hy with hyy | hmem
      · exact yearSection_ok_iff.mp ⟨e1, he1⟩ s hs hyy
      · exact ih ⟨e2, he2⟩ s hs hmem
  · intro h
    exact ⟨_, yearSections_ok h⟩

/-- `categorySection` succeeds when the bucket's records satisfy `keyCond`,
yielding its pure image. -/
theorem categorySection_ok {l : List Student} {c : String}
    (h : ∀ s ∈ l.filter (fun s => categoryOf s == c), keyCond s) :
    categorySection l c = .ok (categorySectionPure l c) := by
  rw [categorySection, categorySectionPure]
  by_cases he : (l.filter (fun s => categoryOf s == c)).isEmpty
  · simp [he]
  · have hy : ∀ s ∈ l.filter (fun s => categoryOf s == c), s.year.isSome :=
      fun s hs => (h s hs).1
    have hr : yearSections (l.filter (fun s => categoryOf s == c)) year_order =
        .ok (yearSectionsPure (l.filter (fun s => categoryOf s == c)) year_order) :=
      yearSections_ok (fun s hs hmem => (h s hs).2 hmem)
    simp only [he, if_false, getKeys_ok_of hy, hr]
    rfl

/-- `categorySection` succeeds exactly when the bucket's records satisfy
`keyCond`. -/
theorem categorySection_ok_iff {l : List Student} {c : String} :
    (∃ es, categorySection l c = .ok es) ↔
      ∀ s ∈ l.filter (fun s => categoryOf s == c), keyCond s := by
  constructor
  · rintro ⟨es, hes⟩ s hs
    rw [categorySection] at hes
    by_cases he : (l.filter (fun s => categoryOf s == c)).isEmpty
    · rw [List.isEmpty_iff] at he
      rw [he] at hs
      simp at hs
    · rw [if_neg he] at hes
      rcases except_bind_ok.mp hes with ⟨vs, hvs, h2⟩
      rcases except_bind_ok.mp h2 with ⟨body, hbody, _⟩
      exact ⟨getKeys_keys hvs s hs,
        fun hmem => yearSections_ok_iff.mp ⟨body, hbody⟩ s hs hmem⟩
  · intro h
    exact ⟨_, categorySection_ok h⟩

/-- `categorySections` succeeds when every listed category's bucket
satisfies `keyCond`, yielding its pure image. -/
theorem categorySections_ok {l : List Student} :
    ∀ {cs : List String},
      (∀ c ∈ cs, ∀ s ∈ l.filter (fun s => categoryOf s == c), keyCond s) →
      categorySections l cs = .ok (cs.flatMap (categorySectionPure l)) := by
  intro cs
  induction cs with
  | nil => intro _; rfl
  | cons c rest ih =>
    intro h
    have h2 := ih (fun c' hc' => h c' (by simp [hc']))
    simp only [categorySections, categorySection_ok (h c (by simp)), h2,
      List.flatMap_cons]
    rfl

/-- `categorySections` succeeds exactly when every listed category's bucket
satisfies `keyCond`. -/
theorem categorySections_ok_iff {l : List Student} {cs : List String} :
    (∃ es, categorySections l cs = .ok es) ↔
      ∀ c ∈ cs, ∀ s ∈ l.filter (fun s => categoryOf s == c), keyCond s := by
  constructor
  · intro hex
    induction cs with
    | nil => intro c hc; simp at hc
    | cons c rest ih =>
      rcases hex with ⟨es, hes⟩
      rw [categorySections] at hes
      rcases except_bind_ok.mp hes with ⟨e1, he1, h2⟩
      rcases except_bind_ok.mp h2 with ⟨e2, he2, _⟩
      intro c' hc' s hs
      rcases List.mem_cons.mp hc' with rfl | hmem
      · exact categorySection_ok_iff.mp ⟨e1, he1⟩ s hs
      · exact ih ⟨e2, he2⟩ c' hmem s hs
  · intro h
    exact ⟨_, categorySections_ok h⟩

/-- `generate_student_document` succeeds under `okCond`, producing exactly
the pure assembled document. -/
theorem generate_ok {l : List Student} (h : okCond l) :
    generate_student_document l = .ok (assembled l) := by
  have h' : ∀ c ∈ category_order,
      ∀ s ∈ l.filter (fun s => categoryOf s == c), keyCond s := by
    intro c hc s hs
    have heq : categoryOf s = c := by simpa using List.of_mem_filter hs
    exact h s (List.mem_of_mem_filter hs) (heq ▸ hc)
  simp only [generate_student_document, categorySections_ok h', assembled]
  rfl

/-- `generate_student_document` succeeds exactly under `okCond`. -/
theorem generate_ok_iff {l : List Student} :
    (∃ doc, generate_student_document l = .ok doc) ↔ okCond l := by
  constructor
  · rintro ⟨doc, hdoc⟩ s hs hc
    rw [generate_student_document] at hdoc
    rcases except_bind_ok.mp hdoc with ⟨body, hbody, _⟩
    have hsf : s ∈ l.filter (fun t => categoryOf t == categoryOf s) := by
      simp [List.mem_filter, hs]
    exact categorySections_ok_iff.mp ⟨body, hbody⟩ (categoryOf s) hc s hsf
  · intro h
    exact ⟨_, generate_ok h⟩

/-- Any successful run produces exactly the pure assembled document. -/
theorem generate_doc_eq {l : List Student} {doc : List DocElem}
    (h : generate_student_document l = .ok doc) : doc = assembled l := by
  have hok : okCond l := generate_ok_iff.mp ⟨doc, h⟩
  have := (generate_ok hok).symm.trans h
  exact (Except.ok.inj this).symm

/-- Dropping the leading tab of a tabbed string. -/
theorem drop_one_tab (r : String) : ("\t" ++ r).drop 1 = r := by
  apply String.ext
  rw [String.data_drop, String.data_append]
  rfl

/-- `renderedRegnos` distributes over appending. -/
theorem renderedRegnos_append (a b : List DocElem) :
    renderedRegnos (a ++ b) = renderedRegnos a ++ renderedRegnos b :=
  List.flatMap_append a b elemRegnos

/-- A senior paragraph renders exactly its student's registration number. -/
theorem elemRegnos_seniorElem (i : Nat) (s : Student) :
    elemRegnos (seniorElem i s) = [regKey s] := by
  simp [elemRegnos, seniorElem, drop_one_tab]

/-- A senior paragraph block renders the registration numbers in order. -/
theorem renderedRegnos_seniorElems (l : List Student) :
    ∀ i, renderedRegnos (seniorElems i l) = l.map regKey := by
  induction l with
  | nil => intro i; rfl
  | cons s rest ih =>
    intro i
    have ih' := ih (i + 1)
    simp only [renderedRegnos] at ih'
    simp [seniorElems, renderedRegnos, List.flatMap_cons,
      elemRegnos_seniorElem, ih']

/-- The data rows of the table render the registration numbers in order. -/
theorem rows_regnos (l : List Student) :
    ∀ i, (rowElems i l).filterMap (fun row => (row[2]?).map Run.text) =
      l.map regKey := by
  induction l with
  | nil => intro i; rfl
  | cons s rest ih =>
    intro i
    simp only [rowElems, List.filterMap_cons, rowElem, ih (i + 1)]
    rfl

/-- The first-year table section renders the sorted bucket's registration
numbers, a permutation of the bucket's. -/
theorem renderedRegnos_tableSection (l : List Student) :
    (renderedRegnos (tableSection l)).Perm (l.map regKey) := by
  by_cases he : l.isEmpty
  · rw [List.isEmpty_iff] at he
    subst he
    rfl
  · rw [tableSection, if_neg he]
    simp only [renderedRegnos, List.flatMap_cons, List.flatMap_nil,
      List.append_nil, elemRegnos, tableOf, rows_regnos]
    exact (List.perm_insertionSort deptLe l).map regKey

/-- The department sections render, key by key, the registration numbers of
each department's records in input order. -/
theorem renderedRegnos_deptSections (ylist : List Student) :
    ∀ keys, renderedRegnos (deptSections ylist keys) =
      keys.flatMap (fun d =>
        (ylist.filter (fun s => deptKey s == d)).map regKey) := by
  intro keys
  induction keys with
  | nil => rfl
  | cons d rest ih =>
    have hs := renderedRegnos_seniorElems
      (ylist.filter (fun s => deptKey s == d)) 1
    simp only [renderedRegnos] at hs ih
    simp only [deptSections, renderedRegnos, List.flatMap_cons, elemRegnos,
      List.flatMap_append, hs, ih]
    simp

/-- Pointwise-permutation congruence for `flatMap`. -/
theorem flatMap_perm_congr {κ α : Type} {F G : κ → List α} :
    ∀ {ks : List κ}, (∀ k ∈ ks, (F k).Perm (G k)) →
      (ks.flatMap F).Perm (ks.flatMap G) := by
  intro ks
  induction ks with
  | nil => intro _; rfl
  | cons k rest ih =>
    intro h
    simp only [List.flatMap_cons]
    exact (h k (by simp)).append (ih (fun k' hk' => h k' (by simp [hk'])))

/-- Membership congruence for `flatMap`. -/
theorem flatMap_congr_mem {κ α : Type} {F G : κ → List α} :
    ∀ {ks : List κ}, (∀ k ∈ ks, F k = G k) →
      ks.flatMap F = ks.flatMap G := by
  intro ks
  induction ks with
  | nil => intro _; rfl
  | cons k rest ih =>
    intro h
    simp only [List.flatMap_cons, h k (by simp),
      ih (fun k' hk' => h k' (by simp [hk']))]

/-- Gathering a list bucket-by-bucket over distinct keys permutes the
records whose key is listed. -/
theorem flatMap_filter_perm {α κ : Type} [DecidableEq κ] (f : α → κ) :
    ∀ (keys : List κ) (l : List α), keys.Nodup →
      (keys.flatMap (fun k => l.filter (fun a => f a == k))).Perm
        (l.filter (fun a => decide (f a ∈ keys))) := by
  intro keys
  induction keys with
  | nil => intro l _; simp
  | cons k rest ih =>
    intro l hnd
    have hknr : k ∉ rest := (List.nodup_cons.mp hnd).1
    have hndr : rest.Nodup := (List.nodup_cons.mp hnd).2
    rw [List.flatMap_cons]
    have hstep1 : rest.flatMap (fun k' => l.filter (fun a => f a == k')) =
        rest.flatMap (fun k' =>
          (l.filter (fun a => !(f a == k))).filter (fun a => f a == k')) := by
      refine flatMap_congr_mem ?_
      intro k' hk'
      rw [List.filter_filter]
      refine (List.filter_congr ?_).symm
      intro a _
      by_cases h : f a = k'
      · have hne : f a ≠ k := fun he => hknr ((h.symm.trans he) ▸ hk')
        have hke : ¬ k' = k := fun he2 => hne (h.trans he2)
        simp [h, hne, hke]
      · simp [h]
    rw [hstep1]
    have hih := ih (l.filter (fun a => !(f a == k))) hndr
    have hperm2 : ((l.filter (fun a => f a == k)) ++
        ((l.filter (fun a => !(f a == k))).filter
          (fun a => decide (f a ∈ rest)))).Perm
        (l.filter (fun a => decide (f a ∈ k :: rest))) := by
      have hpart := List.filter_append_perm (fun a => f a == k)
        (l.filter (fun a => decide (f a ∈ k :: rest)))
      have he1 : (l.filter (fun a => decide (f a ∈ k :: rest))).filter
          (fun a => f a == k) = l.filter (fun a => f a == k) := by
        rw [List.filter_filter]
        refine List.filter_congr ?_
        intro a _
        by_cases h : f a = k <;> simp [h]
      have he2 : (l.filter (fun a => decide (f a ∈ k :: rest))).filter
          (fun a => !(f a == k)) =
          (l.filter (fun a => !(f a == k))).filter
            (fun a => decide (f a ∈ rest)) := by
        rw [List.filter_filter, List.filter_filter]
        refine List.filter_congr ?_
        intro a _
        by_cases h : f a = k <;> simp [h, Bool.and_comm]
      rw [he1, he2] at hpart
      exact hpart
    exact ((hih.append_left (l.filter (fun a => f a == k))).trans hperm2)

/-- Gathering a list bucket-by-bucket over distinct covering keys permutes
the whole list. -/
theorem flatMap_filter_perm_all {α κ : Type} [DecidableEq κ] (f : α → κ)
    (keys : List κ) (l : List α) (hnd : keys.Nodup)
    (hcov : ∀ a ∈ l, f a ∈ keys) :
    (keys.flatMap (fun k => l.filter (fun a => f a == k))).Perm l := by
  have h := flatMap_filter_perm f keys l hnd
  have he : l.filter (fun a => decide (f a ∈ keys)) = l := by
    have h2 : l.filter (fun a => decide (f a ∈ keys)) =
        l.filter (fun _ => true) :=
      List.filter_congr (fun a ha => by simp [hcov a ha])
    rw [h2, List.filter_true]
  rw [he] at h
  exact h

/-- Every record's department key is listed in the sorted dict keys. -/
theorem deptKey_mem_sorted {ylist : List Student} {s : Student}
    (hs : s ∈ ylist) :
    deptKey s ∈ sortStrings (dictKeys deptKey ylist) :=
  mem_sortStrings.mpr (mem_dictKeys.mpr ⟨s, hs, rfl⟩)

/-- The senior section of a year bucket renders a permutation of the
bucket's registration numbers. -/
theorem renderedRegnos_seniorSection (ylist : List Student) :
    (renderedRegnos (seniorSection ylist)).Perm (ylist.map regKey) := by
  rw [seniorSection, renderedRegnos_deptSections]
  have h1 : (sortStrings (dictKeys deptKey ylist)).flatMap
      (fun d => (ylist.filter (fun s => deptKey s == d)).map regKey) =
      ((sortStrings (dictKeys deptKey ylist)).flatMap
        (fun d => ylist.filter (fun s => deptKey s == d))).map regKey := by
    rw [List.map_flatMap]
  rw [h1]
  refine List.Perm.map regKey ?_
  exact flatMap_filter_perm_all deptKey _ ylist
    (nodup_sortStrings (nodup_dictKeys deptKey ylist))
    (fun s hs => deptKey_mem_sorted hs)

/-- A year section renders a permutation of its year bucket's registration
numbers. -/
theorem renderedRegnos_yearSectionPure (bucket : List Student) (y : String) :
    (renderedRegnos (yearSectionPure bucket y)).Perm
      ((bucket.filter (fun s => yearKey s == y)).map regKey) := by
  rw [yearSectionPure]
  by_cases he : (bucket.filter (fun s => yearKey s == y)).isEmpty
  · rw [if_pos he]
    rw [List.isEmpty_iff] at he
    rw [he]
    rfl
  · rw [if_neg he]
    by_cases hf : y = "First"
    · subst hf
      rw [if_pos (by simp)]
      simpa [renderedRegnos, List.flatMap_cons, elemRegnos] using
        renderedRegnos_tableSection
          (bucket.filter (fun s => yearKey s == "First"))
    · rw [if_neg (by simp [hf])]
      simpa [renderedRegnos, List.flatMap_cons, elemRegnos] using
        renderedRegnos_seniorSection (bucket.filter (fun s => yearKey s == y))

/-- The year sections of a bucket render a permutation of the registration
numbers of its recognized-year records. -/
theorem renderedRegnos_yearSectionsPure (bucket : List Student) :
    (renderedRegnos (yearSectionsPure bucket year_order)).Perm
      ((bucket.filter (fun s => decide (yearKey s ∈ year_order))).map
        regKey) := by
  rw [yearSectionsPure]
  have h0 : renderedRegnos (year_order.flatMap (yearSectionPure bucket)) =
      year_order.flatMap (fun y => renderedRegnos (yearSectionPure bucket y)) := by
    rw [renderedRegnos, List.flatMap_assoc]
    rfl
  rw [h0]
  have h1 : (year_order.flatMap
      (fun y => renderedRegnos (yearSectionPure bucket y))).Perm
      (year_order.flatMap (fun y =>
        (bucket.filter (fun s => yearKey s == y)).map regKey)) :=
    flatMap_perm_congr (fun y _ => renderedRegnos_yearSectionPure bucket y)
  refine h1.trans ?_
  have h2 : (year_order.flatMap (fun y =>
      (bucket.filter (fun s => yearKey s == y)).map regKey)) =
      ((year_order.flatMap (fun y =>
        bucket.filter (fun s => yearKey s == y))).map regKey) := by
    rw [List.map_flatMap]
  rw [h2]
  exact List.Perm.map regKey
    (flatMap_filter_perm yearKey year_order bucket (by decide))

/-- A category section renders a permutation of the registration numbers of
the bucket's recognized-year records. -/
theorem renderedRegnos_categorySectionPure (l : List Student) (c : String) :
    (renderedRegnos (categorySectionPure l c)).Perm
      (((l.filter (fun s => categoryOf s == c)).filter
        (fun s => decide (yearKey s ∈ year_order))).map regKey) := by
  rw [categorySectionPure]
  by_cases he : (l.filter (fun s => categoryOf s == c)).isEmpty
  · rw [if_pos he]
    rw [List.isEmpty_iff] at he
    rw [he]
    rfl
  · rw [if_neg he, renderedRegnos_append]
    have hh : renderedRegnos (if (c == "Uncategorized") = true then []
        else [.heading 1 ⟨c, false, some black⟩]) = [] := by
      by_cases hc : c = "Uncategorized" <;>
        simp [hc, renderedRegnos, elemRegnos]
    rw [hh]
    simpa using
      renderedRegnos_yearSectionsPure (l.filter (fun s => categoryOf s == c))

/-- The assembled document renders a permutation of the registration
numbers of the records whose category bucket is processed and whose year is
recognized. -/
theorem assembled_regnos_perm (l : List Student) :
    (renderedRegnos (assembled l)).Perm
      ((l.filter (fun s => decide (categoryOf s ∈ category_order) &&
        decide (yearKey s ∈ year_order))).map regKey) := by
  rw [assembled]
  have h0 : renderedRegnos
      (titleHeading :: category_order.flatMap (categorySectionPure l)) =
      renderedRegnos (category_order.flatMap (categorySectionPure l)) := by
    simp [renderedRegnos, titleHeading, elemRegnos]
  rw [h0]
  have h1 : renderedRegnos (category_order.flatMap (categorySectionPure l)) =
      category_order.flatMap
        (fun c => renderedRegnos (categorySectionPure l c)) := by
    rw [renderedRegnos, List.flatMap_assoc]
    rfl
  rw [h1]
  have h2 : (category_order.flatMap
      (fun c => renderedRegnos (categorySectionPure l c))).Perm
      (category_order.flatMap (fun c =>
        ((l.filter (fun s => decide (yearKey s ∈ year_order))).filter
          (fun s => categoryOf s == c)).map regKey)) := by
    refine flatMap_perm_congr ?_
    intro c _
    refine (renderedRegnos_categorySectionPure l c).trans ?_
    have hsw : (l.filter (fun s => categoryOf s == c)).filter
        (fun s => decide (yearKey s ∈ year_order)) =
        (l.filter (fun s => decide (yearKey s ∈ year_order))).filter
          (fun s => categoryOf s == c) := by
      rw [List.filter_filter, List.filter_filter]
      exact List.filter_congr (fun a _ => Bool.and_comm _ _)
    rw [hsw]
  refine h2.trans ?_
  have h3 : (category_order.flatMap (fun c =>
      ((l.filter (fun s => decide (yearKey s ∈ year_order))).filter
        (fun s => categoryOf s == c)).map regKey)) =
      ((category_order.flatMap (fun c =>
        (l.filter (fun s => decide (yearKey s ∈ year_order))).filter
          (fun s => categoryOf s == c))).map regKey) := by
    rw [List.map_flatMap]
  rw [h3]
  refine List.Perm.map regKey ?_
  have h4 := flatMap_filter_perm categoryOf category_order
    (l.filter (fun s => decide (yearKey s ∈ year_order))) (by decide)
  have h5 : (l.filter (fun s => decide (yearKey s ∈ year_order))).filter
      (fun a => decide (categoryOf a ∈ category_order)) =
      l.filter (fun s => decide (categoryOf s ∈ category_order) &&
        decide (yearKey s ∈ year_order)) :=
    List.filter_filter _ _
  exact h5 ▸ h4

/-- `headingTextsAt` distributes over appending. -/
theorem headingTextsAt_append (lvl : Nat) (a b : List DocElem) :
    headingTextsAt lvl (a ++ b) =
      headingTextsAt lvl a ++ headingTextsAt lvl b :=
  List.filterMap_append a b _

/-- Senior paragraphs carry no headings. -/
theorem headingTextsAt_seniorElems (lvl : Nat) (l : List Student) :
    ∀ i, headingTextsAt lvl (seniorElems i l) = [] := by
  induction l with
  | nil => intro i; rfl
  | cons s rest ih =>
    intro i
    have ih' := ih (i + 1)
    simp only [headingTextsAt] at ih' ⊢
    simp [seniorElems, seniorElem, List.filterMap_cons, ih']

/-- The table section carries no headings. -/
theorem headingTextsAt_tableSection (lvl : Nat) (l : List Student) :
    headingTextsAt lvl (tableSection l) = [] := by
  by_cases he : l.isEmpty
  · rw [tableSection, if_pos he]
    rfl
  · rw [tableSection, if_neg he]
    rfl

/-- The department sections' level-3 headings are exactly the given keys,
in order. -/
theorem headingTextsAt3_deptSections (ylist : List Student) :
    ∀ keys, headingTextsAt 3 (deptSections ylist keys) = keys := by
  intro keys
  induction keys with
  | nil => rfl
  | cons d rest ih =>
    have hs := headingTextsAt_seniorElems 3
      (ylist.filter (fun s => deptKey s == d)) 1
    simp only [headingTextsAt] at hs ih ⊢
    simp [deptSections, List.filterMap_cons, List.filterMap_append, hs, ih]

/-- The department sections carry headings only at level 3. -/
theorem headingTextsAt_deptSections_ne (lvl : Nat) (h : lvl ≠ 3)
    (ylist : List Student) :
    ∀ keys, headingTextsAt lvl (deptSections ylist keys) = [] := by
  intro keys
  induction keys with
  | nil => rfl
  | cons d rest ih =>
    have hs := headingTextsAt_seniorElems lvl
      (ylist.filter (fun s => deptKey s == d)) 1
    simp only [headingTextsAt] at hs ih ⊢
    simp [deptSections, List.filterMap_cons, Ne.symm h,
      List.filterMap_append, hs, ih]

/-- The senior section's level-3 headings are the sorted department keys. -/
theorem headingTextsAt3_seniorSection (ylist : List Student) :
    headingTextsAt 3 (seniorSection ylist) =
      sortStrings (dictKeys deptKey ylist) :=
  headingTextsAt3_deptSections ylist _

/-- The senior section carries headings only at level 3. -/
theorem headingTextsAt_seniorSection_ne (lvl : Nat) (h : lvl ≠ 3)
    (ylist : List Student) :
    headingTextsAt lvl (seniorSection ylist) = [] :=
  headingTextsAt_deptSections_ne lvl h ylist _

/-- The level-2 headings of one year section: `"<Year> Year"` exactly when
the year bucket is non-empty. -/
theorem headingTextsAt2_yearSectionPure (bucket : List Student) (y : String) :
    headingTextsAt 2 (yearSectionPure bucket y) =
      if (bucket.filter (fun s => yearKey s == y)).isEmpty then []
      else [y ++ " Year"] := by
  rw [yearSectionPure]
  by_cases he : (bucket.filter (fun s => yearKey s == y)).isEmpty
  · rw [if_pos he, if_pos he]
    rfl
  · rw [if_neg he, if_neg he]
    by_cases hf : y = "First"
    · subst hf
      rw [if_pos (by simp)]
      have ht := headingTextsAt_tableSection 2
        (bucket.filter (fun s => yearKey s == "First"))
      simp only [headingTextsAt] at ht ⊢
      simp [List.filterMap_cons, ht]
    · rw [if_neg (by simp [hf])]
      have ht := headingTextsAt_seniorSection_ne 2 (by decide)
        (bucket.filter (fun s => yearKey s == y))
      simp only [headingTextsAt] at ht ⊢
      simp [List.filterMap_cons, ht]

/-- A year section carries no headings at levels other than 2 and 3. -/
theorem headingTextsAt_yearSectionPure_ne (lvl : Nat) (h2 : lvl ≠ 2)
    (h3 : lvl ≠ 3) (bucket : List Student) (y : String) :
    headingTextsAt lvl (yearSectionPure bucket y) = [] := by
  rw [yearSectionPure]
  by_cases he : (bucket.filter (fun s => yearKey s == y)).isEmpty
  · rw [if_pos he]
    rfl
  · rw [if_neg he]
    by_cases hf : y = "First"
    · subst hf
      rw [if_pos (by simp)]
      have ht := headingTextsAt_tableSection lvl
        (bucket.filter (fun s => yearKey s == "First"))
      simp only [headingTextsAt] at ht ⊢
      simp [List.filterMap_cons, Ne.symm h2, ht]
    · rw [if_neg (by simp [hf])]
      have ht := headingTextsAt_seniorSection_ne lvl h3
        (bucket.filter (fun s => yearKey s == y))
      simp only [headingTextsAt] at ht ⊢
      simp [List.filterMap_cons, Ne.symm h2, ht]

/-- The level-2 headings of the year sections: the non-empty years, in
iteration order, suffixed with `" Year"`. -/
theorem headingTextsAt2_yearSectionsPure (bucket : List Student) :
    ∀ ys : List String,
      headingTextsAt 2 (yearSectionsPure bucket ys) =
        (ys.filter (fun y =>
          !(bucket.filter (fun s => yearKey s == y)).isEmpty)).map
          (fun y => y ++ " Year") := by
  intro ys
  induction ys with
  | nil => rfl
  | cons y rest ih =>
    rw [yearSectionsPure, List.flatMap_cons, headingTextsAt_append,
      headingTextsAt2_yearSectionPure]
    rw [yearSectionsPure] at ih
    rw [ih, List.filter_cons]
    by_cases he : (bucket.filter (fun s => yearKey s == y)).isEmpty
    · simp [he]
    · simp [he]

/-- The year sections carry no headings at levels other than 2 and 3. -/
theorem headingTextsAt_yearSectionsPure_ne (lvl : Nat) (h2 : lvl ≠ 2)
    (h3 : lvl ≠ 3) (bucket : List Student) :
    ∀ ys : List String,
      headingTextsAt lvl (yearSectionsPure bucket ys) = [] := by
  intro ys
  induction ys with
  | nil => rfl
  | cons y rest ih =>
    rw [yearSectionsPure, List.flatMap_cons, headingTextsAt_append,
      headingTextsAt_yearSectionPure_ne lvl h2 h3]
    rw [yearSectionsPure] at ih
    rw [ih]
    rfl

/-- The level-2 headings of a category section: its non-empty years in
iteration order. -/
theorem headingTextsAt2_categorySectionPure (l : List Student) (c : String) :
    headingTextsAt 2 (categorySectionPure l c) =
      (year_order.filter (fun y =>
        !((l.filter (fun s => categoryOf s == c)).filter
          (fun s => yearKey s == y)).isEmpty)).map (fun y => y ++ " Year") := by
  rw [categorySectionPure]
  by_cases he : (l.filter (fun s => categoryOf s == c)).isEmpty
  · rw [if_pos he]
    rw [List.isEmpty_iff] at he
    rw [he]
    rfl
  · rw [if_neg he, headingTextsAt_append,
      headingTextsAt2_yearSectionsPure]
    by_cases hc : c = "Uncategorized" <;>
      simp [hc, headingTextsAt, List.filterMap_cons]

/-- The level-1 headings of a category section: the category's name when
its bucket is non-empty, except for `Uncategorized`. -/
theorem headingTextsAt1_categorySectionPure (l : List Student) (c : String) :
    headingTextsAt 1 (categorySectionPure l c) =
      if (l.filter (fun s => categoryOf s == c)).isEmpty then []
      else if c = "Uncategorized" then [] else [c] := by
  rw [categorySectionPure]
  by_cases he : (l.filter (fun s => categoryOf s == c)).isEmpty
  · rw [if_pos he, if_pos he]
    rfl
  · rw [if_neg he, if_neg he, headingTextsAt_append,
      headingTextsAt_yearSectionsPure_ne 1 (by decide) (by decide)]
    by_cases hc : c = "Uncategorized" <;>
      simp [hc, headingTextsAt, List.filterMap_cons]

/-- The document's level-1 headings: `Hostel` then `Dayscholar`, each
exactly when its bucket is non-empty (never `Uncategorized`). -/
theorem headingTextsAt1_assembled (l : List Student) :
    headingTextsAt 1 (assembled l) =
      (["Hostel", "Dayscholar"].filter (fun c =>
        !(l.filter (fun s => categoryOf s == c)).isEmpty)) := by
  rw [assembled]
  have h0 : headingTextsAt 1
      (titleHeading :: category_order.flatMap (categorySectionPure l)) =
      headingTextsAt 1 (category_order.flatMap (categorySectionPure l)) := by
    simp [headingTextsAt, titleHeading, List.filterMap_cons]
  rw [h0]
  rw [show category_order = ["Hostel", "Dayscholar", "Uncategorized"] from rfl]
  rw [List.flatMap_cons, List.flatMap_cons, List.flatMap_cons,
    List.flatMap_nil, List.append_nil, headingTextsAt_append,
    headingTextsAt_append, headingTextsAt1_categorySectionPure,
    headingTextsAt1_categorySectionPure, headingTextsAt1_categorySectionPure]
  rw [List.filter_cons, List.filter_cons, List.filter_nil]
  by_cases hH : (l.filter (fun s => categoryOf s == "Hostel")).isEmpty <;>
    by_cases hD : (l.filter (fun s => categoryOf s == "Dayscholar")).isEmpty <;>
      simp [hH, hD]

/-- Filtering after a stable department insertion keeps the inserted record
first among its department. -/
theorem filter_orderedInsert_dept (d : String) (a : Student) :
    ∀ l : List Student,
      (List.orderedInsert deptLe a l).filter (fun s => deptKey s == d) =
        if deptKey a == d then
          a :: l.filter (fun s => deptKey s == d)
        else l.filter (fun s => deptKey s == d) := by
  intro l
  induction l with
  | nil =>
    by_cases hd : deptKey a = d <;>
      simp [List.orderedInsert, List.filter_cons, hd]
  | cons b t ih =>
    rw [List.orderedInsert]
    by_cases hab : deptLe a b
    · rw [if_pos hab]
      by_cases hd : deptKey a = d <;>
        simp [List.filter_cons, hd]
    · rw [if_neg hab]
      have hba : deptKey b < deptKey a := lt_of_not_le hab
      by_cases hd : deptKey a = d
      · have hbd : ¬ deptKey b = d := by
          intro hbe
          rw [hbe, hd] at hba
          exact lt_irrefl d hba
        simp [List.filter_cons, hbd, ih, hd]
      · by_cases hbd : deptKey b = d <;>
          simp [List.filter_cons, hbd, ih, hd]

/-- Python's stable sort by department: filtering one department out of the
sorted list gives that department's records in input order. -/
theorem sortByDept_filter (l : List Student) (d : String) :
    (sortByDept l).filter (fun s => deptKey s == d) =
      l.filter (fun s => deptKey s == d) := by
  induction l with
  | nil => rfl
  | cons a t ih =>
    rw [show sortByDept (a :: t) =
      List.orderedInsert deptLe a (sortByDept t) from rfl]
    rw [filter_orderedInsert_dept, List.filter_cons]
    by_cases hd : deptKey a = d <;> simp [hd, ih]

/-- The departments of the sorted first-year bucket ascend. -/
theorem sortByDept_sorted (l : List Student) :
    ((sortByDept l).map deptKey).Sorted (fun a b => a ≤ b) := by
  have h := List.sorted_insertionSort deptLe l
  exact List.pairwise_map.mpr h

/-- `docRuns` distributes over appending. -/
theorem docRuns_append (a b : List DocElem) :
    docRuns (a ++ b) = docRuns a ++ docRuns b :=
  List.flatMap_append a b _

/-- `docRuns` commutes with `flatMap`. -/
theorem docRuns_flatMap (ys : List String) (F : String → List DocElem) :
    docRuns (ys.flatMap F) = ys.flatMap (fun y => docRuns (F y)) := by
  rw [docRuns, List.flatMap_assoc]
  rfl

/-- Senior paragraphs carry only black runs. -/
theorem black_seniorElems {r : Run} (l : List Student) :
    ∀ i, r ∈ docRuns (seniorElems i l) → r.color = some black := by
  induction l with
  | nil => intro i h; simp [docRuns, seniorElems] at h
  | cons s rest ih =>
    intro i h
    simp only [seniorElems, docRuns, List.flatMap_cons] at h
    rcases List.mem_append.mp h with h1 | h2
    · simp [DocElem.allRuns, seniorElem] at h1
      rcases h1 with rfl | rfl | rfl <;> rfl
    · exact ih (i + 1) h2

/-- First-year table rows carry only black runs. -/
theorem black_rowElems {r : Run} (l : List Student) :
    ∀ i, (∃ row ∈ rowElems i l, r ∈ row) → r.color = some black := by
  induction l with
  | nil => intro i h; simp [rowElems] at h
  | cons s rest ih =>
    intro i h
    rcases h with ⟨row, hrow, hr⟩
    rcases List.mem_cons.mp hrow with rfl | hmem
    · simp [rowElem] at hr
      rcases hr with rfl | rfl | rfl | rfl | rfl <;> rfl
    · exact ih (i + 1) ⟨row, hmem, hr⟩

/-- The table header carries only black runs. -/
theorem black_headerRuns {r : Run} (h : r ∈ headerRuns) :
    r.color = some black := by
  simp [headerRuns, tableHeaderTexts] at h
  rcases h with rfl | rfl | rfl | rfl | rfl <;> rfl

/-- The table section carries only black runs. -/
theorem black_tableSection {r : Run} (l : List Student)
    (h : r ∈ docRuns (tableSection l)) : r.color = some black := by
  by_cases he : l.isEmpty
  · rw [tableSection, if_pos he] at h
    simp [docRuns] at h
  · rw [tableSection, if_neg he] at h
    simp only [docRuns, List.flatMap_cons, List.flatMap_nil,
      List.append_nil, DocElem.allRuns, Table.allRuns, tableOf] at h
    rcases List.mem_append.mp h with h1 | h2
    · exact black_headerRuns h1
    · exact black_rowElems (sortByDept l) 1 (List.mem_flatten.mp h2)

/-- The department sections carry only black runs. -/
theorem black_deptSections {r : Run} (ylist : List Student) :
    ∀ keys, r ∈ docRuns (deptSections ylist keys) →
      r.color = some black := by
  intro keys
  induction keys with
  | nil => intro h; simp [docRuns, deptSections] at h
  | cons d rest ih =>
    intro h
    simp only [deptSections, docRuns, List.flatMap_cons,
      List.flatMap_append] at h
    rcases List.mem_append.mp h with h1 | h2
    · simp [DocElem.allRuns] at h1
      rw [h1]
    · rcases List.mem_append.mp h2 with h3 | h4
      · exact black_seniorElems _ 1 h3
      · exact ih h4

/-- The senior section carries only black runs. -/
theorem black_seniorSection {r : Run} (ylist : List Student)
    (h : r ∈ docRuns (seniorSection ylist)) : r.color = some black :=
  black_deptSections ylist _ h

/-- A year section carries only black runs. -/
theorem black_yearSectionPure {r : Run} (bucket : List Student) (y : String)
    (h : r ∈ docRuns (yearSectionPure bucket y)) : r.color = some black := by
  rw [yearSectionPure] at h
  by_cases he : (bucket.filter (fun s => yearKey s == y)).isEmpty
  · rw [if_pos he] at h
    simp [docRuns] at h
  · rw [if_neg he] at h
    simp only [docRuns, List.flatMap_cons] at h
    rcases List.mem_append.mp h with h1 | h2
    · simp [DocElem.allRuns] at h1
      rw [h1]
    · by_cases hf : y = "First"
      · subst hf
        rw [if_pos (by simp)] at h2
        exact black_tableSection _ h2
      · rw [if_neg (by simp [hf])] at h2
        exact black_seniorSection _ h2

/-- A category section carries only black runs. -/
theorem black_categorySectionPure {r : Run} (l : List Student) (c : String)
    (h : r ∈ docRuns (categorySectionPure l c)) : r.color = some black := by
  rw [categorySectionPure] at h
  by_cases he : (l.filter (fun s => categoryOf s == c)).isEmpty
  · rw [if_pos he] at h
    simp [docRuns] at h
  · rw [if_neg he, docRuns_append] at h
    rcases List.mem_append.mp h with h1 | h2
    · by_cases hc : c = "Uncategorized"
      · rw [if_pos (by simp [hc])] at h1
        simp [docRuns] at h1
      · rw [if_neg (by simp [hc])] at h1
        simp [docRuns, DocElem.allRuns] at h1
        rw [h1]
    · rw [yearSectionsPure, docRuns_flatMap] at h2
      rcases List.mem_flatMap.mp h2 with ⟨y, _, hy⟩
      exact black_yearSectionPure _ y hy

/-- The whole assembled document carries only black runs. -/
theorem black_assembled {r : Run} (l : List Student)
    (h : r ∈ docRuns (assembled l)) : r.color = some black := by
  rw [assembled] at h
  simp only [docRuns, List.flatMap_cons] at h
  rcases List.mem_append.mp h with h1 | h2
  · simp [titleHeading, DocElem.allRuns] at h1
    rw [h1]
  · rw [show (category_order.flatMap (categorySectionPure l)).flatMap
      DocElem.allRuns = docRuns (category_order.flatMap
        (categorySectionPure l)) from rfl, docRuns_flatMap] at h2
    rcases List.mem_flatMap.mp h2 with ⟨c, _, hc⟩
    exact black_categorySectionPure l c hc

/-- The senior paragraphs are as many as the students. -/
theorem seniorElems_length (l : List Student) :
    ∀ i, (seniorElems i l).length = l.length := by
  induction l with
  | nil => intro i; rfl
  | cons s rest ih =>
    intro i
    simp [seniorElems, ih (i + 1)]

/-- The `j`-th senior paragraph is the one of the `j`-th student, numbered
`i + j`. -/
theorem seniorElems_get (l : List Student) :
    ∀ i j (hj : j < l.length) (hj' : j < (seniorElems i l).length),
      (seniorElems i l).get ⟨j, hj'⟩ = seniorElem (i + j) (l.get ⟨j, hj⟩) := by
  induction l with
  | nil => intro i j hj _; simp at hj
  | cons s rest ih =>
    intro i j hj hj'
    cases j with
    | zero => simp [seniorElems]
    | succ j' =>
      have hj2 : j' < rest.length := by simpa using hj
      have hj2' : j' < (seniorElems (i + 1) rest).length := by
        rw [seniorElems_length rest (i + 1)]
        exact hj2
      have hstep : (seniorElems i (s :: rest)).get ⟨j' + 1, hj'⟩ =
          (seniorElems (i + 1) rest).get ⟨j', hj2'⟩ := rfl
      have hstep2 : (s :: rest).get ⟨j' + 1, hj⟩ = rest.get ⟨j', hj2⟩ := rfl
      rw [hstep, hstep2, ih (i + 1) j' hj2 hj2']
      have harith : i + 1 + j' = i + (j' + 1) := by omega
      rw [harith]

/-- The table rows are as many as the students. -/
theorem rowElems_length (l : List Student) :
    ∀ i, (rowElems i l).length = l.length := by
  induction l with
  | nil => intro i; rfl
  | cons s rest ih =>
    intro i
    simp [rowElems, ih (i + 1)]

/-- The `j`-th table row is the one of the `j`-th student, numbered
`i + j`. -/
theorem rowElems_get (l : List Student) :
    ∀ i j (hj : j < l.length) (hj' : j < (rowElems i l).length),
      (rowElems i l).get ⟨j, hj'⟩ = rowElem (i + j) (l.get ⟨j, hj⟩) := by
  induction l with
  | nil => intro i j hj _; simp at hj
  | cons s rest ih =>
    intro i j hj hj'
    cases j with
    | zero => simp [rowElems]
    | succ j' =>
      have hj2 : j' < rest.length := by simpa using hj
      have hj2' : j' < (rowElems (i + 1) rest).length := by
        rw [rowElems_length rest (i + 1)]
        exact hj2
      have hstep : (rowElems i (s :: rest)).get ⟨j' + 1, hj'⟩ =
          (rowElems (i + 1) rest).get ⟨j', hj2'⟩ := rfl
      have hstep2 : (s :: rest).get ⟨j' + 1, hj⟩ = rest.get ⟨j', hj2⟩ := rfl
      rw [hstep, hstep2, ih (i + 1) j' hj2 hj2']
      have harith : i + 1 + j' = i + (j' + 1) := by omega
      rw [harith]

/-- Records with the four mandatory keys satisfy the success condition. -/
theorem okCond_of_mandatory {l : List Student}
    (h : ∀ s ∈ l, mandatoryKeys s) : okCond l :=
  fun s hs _ => ⟨(h s hs).2.2.2,
    fun _ => ⟨(h s hs).1, (h s hs).2.1, (h s hs).2.2.1⟩⟩

/-- `categorySections` only looks at each listed category's bucket. -/
theorem categorySections_congr {l l' : List Student} :
    ∀ {cs : List String},
      (∀ c ∈ cs, categorySection l c = categorySection l' c) →
      categorySections l cs = categorySections l' cs := by
  intro cs
  induction cs with
  | nil => intro _; rfl
  | cons c rest ih =>
    intro h
    rw [categorySections, categorySections, h c (by simp),
      ih (fun c' hc' => h c' (by simp [hc']))]

/-- A schema-valid first-year day scholar with a section. -/
def demoFirst : Student :=
  ⟨some "Alice", some "SEC25CS001", some "CSE", some "First", none, some "A"⟩

/-- A schema-valid second-year hosteller (ECE). -/
def demoSecondA : Student :=
  ⟨some "Bob", some "SEC24EC002", some "ECE", some "Second",
    some "Hostel", none⟩

/-- A schema-valid second-year hosteller (CSE). -/
def demoSecondB : Student :=
  ⟨some "Carol", some "SEC24CS003", some "CSE", some "Second",
    some "Hostel", none⟩

/-- A schema-valid record whose year is the empty string. -/
def demoEmptyYear : Student :=
  ⟨some "Dave", some "SEC25CS004", some "CSE", some "", none, none⟩

/-- A record with an unrecognized category value. -/
def demoFooCat : Student :=
  ⟨some "Eve", some "SEC25CS005", some "CSE", some "First", some "Foo", none⟩

/-- A record missing `full_name` outright, with empty-string year. -/
def demoNoName : Student :=
  ⟨none, some "SEC25CS006", some "CSE", some "", none, none⟩

/-- A schema-valid hosteller whose year is the empty string. -/
def demoHostelEmptyYear : Student :=
  ⟨some "Frank", some "SEC25CS007", some "CSE", some "", some "Hostel", none⟩

/-- C1 fails as stated: this schema-valid input (all four mandatory keys
present, category absent) has its single record dropped — the document is
the bare title and renders no registration number at all, so the rendered
set differs from the input set. -/
theorem C1_counterexample :
    mandatoryKeys demoEmptyYear ∧ demoEmptyYear.category = none ∧
    generate_student_document [demoEmptyYear] = .ok [titleHeading] ∧
    renderedRegnos [titleHeading] = [] ∧
    [demoEmptyYear].map regKey = ["SEC25CS004"] :=
  ⟨by decide, rfl, by rfl, rfl, by decide⟩

/-- C1 (amended): under the schema invariants plus the hypothesis that
every record's year is one of the four recognized literals, assembly
succeeds and the rendered registration numbers are a permutation of the
input's — every record appears exactly once, none dropped or duplicated. -/
theorem C1_completeness (l : List Student)
    (hm : ∀ s ∈ l, mandatoryKeys s)
    (hc : ∀ s ∈ l, s.category = none ∨ s.category = some "Hostel")
    (hy : ∀ s ∈ l, yearKey s ∈ year_order) :
    ∃ doc, generate_student_document l = .ok doc ∧
      (renderedRegnos doc).Perm (l.map regKey) := by
  refine ⟨assembled l, generate_ok (okCond_of_mandatory hm), ?_⟩
  refine (assembled_regnos_perm l).trans ?_
  have h2 : ∀ s ∈ l, (decide (categoryOf s ∈ category_order) &&
      decide (yearKey s ∈ year_order)) = true := by
    intro s hs
    have hcat : categoryOf s ∈ category_order := by
      rcases hc s hs with h | h <;> simp [categoryOf, h, category_order]
    simp [hcat, hy s hs]
  have hfall : l.filter (fun s => decide (categoryOf s ∈ category_order) &&
      decide (yearKey s ∈ year_order)) = l := by
    rw [List.filter_congr h2, List.filter_true]
  rw [hfall]

/-- Witness for C1's amended theorem at a concrete two-record input. -/
theorem C1_completeness_witness :
    (∀ s ∈ [demoFirst, demoSecondA], mandatoryKeys s) ∧
    (∀ s ∈ [demoFirst, demoSecondA],
      s.category = none ∨ s.category = some "Hostel") ∧
    (∀ s ∈ [demoFirst, demoSecondA], yearKey s ∈ year_order) ∧
    (∃ doc, generate_student_document [demoFirst, demoSecondA] = .ok doc ∧
      (renderedRegnos doc).Perm ([demoFirst, demoSecondA].map regKey)) :=
  ⟨by decide, by decide, by decide,
    C1_completeness [demoFirst, demoSecondA] (by decide) (by decide)
      (by decide)⟩

/-- C7 fails as stated: this record lacks `full_name` outright, yet — its
year being the (unrecognized) empty string — none of its remaining keys is
ever read and assembly succeeds instead of raising. -/
theorem C7_counterexample :
    demoNoName.full_name = none ∧
    generate_student_document [demoNoName] = .ok [titleHeading] :=
  ⟨rfl, by rfl⟩

/-- C7 (amended): assembly always succeeds when all four mandatory keys are
present; in general it succeeds exactly under `okCond`: every record of a
processed (recognized-category) bucket must carry `year`, and must carry
the other three mandatory keys only when its year is one of the four
recognized literals — a record with an unrecognized category value, or
with a present-but-unrecognized year, never has its remaining keys
checked. -/
theorem C7_failure_semantics (l : List Student) :
    ((∀ s ∈ l, mandatoryKeys s) →
      ∃ doc, generate_student_document l = .ok doc) ∧
    ((∃ doc, generate_student_document l = .ok doc) ↔ okCond l) :=
  ⟨fun h => ⟨assembled l, generate_ok (okCond_of_mandatory h)⟩,
    generate_ok_iff⟩

/-- Witness for C7's amended theorem at a concrete input. -/
theorem C7_failure_semantics_witness :
    (∀ s ∈ [demoFirst], mandatoryKeys s) ∧
    (∃ doc, generate_student_document [demoFirst] = .ok doc) :=
  ⟨by decide, (C7_failure_semantics [demoFirst]).1 (by decide)⟩

/-- C8: every run of every successfully assembled document — headings,
table header and data cells, and all three runs of each senior paragraph —
carries the explicit black color override. -/
theorem C8_black_color (l : List Student) (doc : List DocElem)
    (h : generate_student_document l = .ok doc) :
    ∀ r ∈ docRuns doc, r.color = some black := by
  intro r hr
  rw [generate_doc_eq h] at hr
  exact black_assembled l hr

/-- Witness for C8 at a concrete input. -/
theorem C8_black_color_witness :
    generate_student_document [demoFirst, demoSecondA] =
      .ok (assembled [demoFirst, demoSecondA]) ∧
    ∀ r ∈ docRuns (assembled [demoFirst, demoSecondA]),
      r.color = some black :=
  ⟨by rfl, C8_black_color [demoFirst, demoSecondA] _ (by rfl)⟩

/-- C10 fails as stated: a hosteller with empty-string year is not rendered
and raises no error, but it is not silently omitted from the output — it
makes the Hostel bucket non-empty, so a dangling `Hostel` heading is
emitted that would not exist without the record. -/
theorem C10_counterexample :
    mandatoryKeys demoHostelEmptyYear ∧
    yearKey demoHostelEmptyYear ∉ year_order ∧
    generate_student_document [demoHostelEmptyYear] =
      .ok [titleHeading, .heading 1 ⟨"Hostel", false, some black⟩] ∧
    generate_student_document [] = .ok [titleHeading] ∧
    [titleHeading, DocElem.heading 1 ⟨"Hostel", false, some black⟩] ≠
      [titleHeading] :=
  ⟨by decide, by decide, by rfl, by rfl, by decide⟩

/-- C10 (amended): when every record carries the four mandatory keys,
assembly succeeds and the rendered registration numbers are exactly those
of records with a processed category and a recognized year — a record
with an unrecognized year contributes no table row, no paragraph and no
registration number and raises no error, though it still counts toward
its category bucket's non-emptiness (and can thus leave a category
heading). -/
theorem C10_unrecognized_year (l : List Student)
    (hm : ∀ s ∈ l, mandatoryKeys s) :
    ∃ doc, generate_student_document l = .ok doc ∧
      (renderedRegnos doc).Perm
        ((l.filter (fun s => decide (categoryOf s ∈ category_order) &&
          decide (yearKey s ∈ year_order))).map regKey) :=
  ⟨assembled l, generate_ok (okCond_of_mandatory hm),
    assembled_regnos_perm l⟩

/-- Witness for C10's amended theorem at a concrete input containing an
empty-year record. -/
theorem C10_unrecognized_year_witness :
    (∀ s ∈ [demoEmptyYear, demoFirst], mandatoryKeys s) ∧
    (∃ doc, generate_student_document [demoEmptyYear, demoFirst] =
      .ok doc ∧
      (renderedRegnos doc).Perm
        (([demoEmptyYear, demoFirst].filter
          (fun s => decide (categoryOf s ∈ category_order) &&
            decide (yearKey s ∈ year_order))).map regKey)) :=
  ⟨by decide, C10_unrecognized_year [demoEmptyYear, demoFirst] (by decide)⟩

/-- A second schema-valid first-year record (ECE). -/
def demoFirstB : Student :=
  ⟨some "Grace", some "SEC25EC008", some "ECE", some "First", none, none⟩

/-- C2 fails as stated: a record with the unrecognized category value
`"Foo"` is not placed in the Uncategorized bucket — it is dropped outright
and renders nothing, though all four mandatory keys are present and its
year is `First`. -/
theorem C2_counterexample :
    demoFooCat.category = some "Foo" ∧ mandatoryKeys demoFooCat ∧
    generate_student_document [demoFooCat] = .ok [titleHeading] ∧
    renderedRegnos [titleHeading] = [] :=
  ⟨rfl, by decide, by rfl, rfl⟩

/-- C2 (amended): a record falls in the Uncategorized bucket exactly when
its category key is absent or literally `"Uncategorized"`; the
Uncategorized section never carries a level-1 heading while a non-empty
Hostel or Dayscholar bucket opens with one bearing its literal name; and a
record whose category value is none of the three processed bucket names is
silently dropped — the document equals the one assembled from the
processed records alone. -/
theorem C2_categories (l : List Student) :
    (∀ s : Student, categoryOf s = "Uncategorized" ↔
      (s.category = none ∨ s.category = some "Uncategorized")) ∧
    headingTextsAt 1 (categorySectionPure l "Uncategorized") = [] ∧
    (∀ c ∈ ["Hostel", "Dayscholar"],
      ¬(l.filter (fun s => categoryOf s == c)).isEmpty = true →
      ∃ rest, categorySectionPure l c =
        DocElem.heading 1 ⟨c, false, some black⟩ :: rest) ∧
    generate_student_document l =
      generate_student_document
        (l.filter (fun s => decide (categoryOf s ∈ category_order))) := by
  refine ⟨?_, ?_, ?_, ?_⟩
  · intro s
    cases hcat : s.category <;> simp [categoryOf, hcat]
  · rw [headingTextsAt1_categorySectionPure]
    by_cases he : (l.filter
        (fun s => categoryOf s == "Uncategorized")).isEmpty <;>
      simp [he]
  · intro c hc he
    rw [categorySectionPure, if_neg he]
    have hcne : ¬(c == "Uncategorized") = true := by
      rcases (by simpa using hc : c = "Hostel" ∨ c = "Dayscholar") with
        rfl | rfl <;> decide
    rw [if_neg hcne]
    exact ⟨_, rfl⟩
  · have hbucket : ∀ c ∈ category_order,
        (l.filter (fun s =>
          decide (categoryOf s ∈ category_order))).filter
            (fun s => categoryOf s == c) =
          l.filter (fun s => categoryOf s == c) := by
      intro c hc
      rw [List.filter_filter]
      refine List.filter_congr ?_
      intro s _
      by_cases h : categoryOf s = c
      · simp [h, hc]
      · simp [h]
    have hsec : ∀ c ∈ category_order,
        categorySection l c =
          categorySection (l.filter
            (fun s => decide (categoryOf s ∈ category_order))) c := by
      intro c hc
      rw [categorySection, categorySection, hbucket c hc]
    simp only [generate_student_document]
    rw [categorySections_congr hsec]

/-- Witness for C2's amended theorem at a concrete input. -/
theorem C2_categories_witness :
    ¬([demoSecondA].filter
      (fun s => categoryOf s == "Hostel")).isEmpty = true ∧
    (∃ rest, categorySectionPure [demoSecondA] "Hostel" =
      DocElem.heading 1 ⟨"Hostel", false, some black⟩ :: rest) :=
  ⟨by decide, (C2_categories [demoSecondA]).2.2.1 "Hostel" (by decide)
    (by decide)⟩

/-- C3: in any successfully assembled document the category sections appear
in the fixed order Hostel, Dayscholar, Uncategorized after the title, the
level-1 headings are exactly the non-empty Hostel/Dayscholar buckets in
that order, and within each category the level-2 headings are exactly the
non-empty years in the fixed order Fourth, Third, Second, First, each
rendered as `"<Year> Year"` — a sublist of the full fixed year list. -/
theorem C3_ordering (l : List Student) (doc : List DocElem)
    (h : generate_student_document l = .ok doc) :
    doc = titleHeading :: (categorySectionPure l "Hostel" ++
      (categorySectionPure l "Dayscholar" ++
        (categorySectionPure l "Uncategorized" ++ []))) ∧
    headingTextsAt 1 doc = ["Hostel", "Dayscholar"].filter (fun c =>
      !(l.filter (fun s => categoryOf s == c)).isEmpty) ∧
    (∀ c, headingTextsAt 2 (categorySectionPure l c) =
      (year_order.filter (fun y =>
        !((l.filter (fun s => categoryOf s == c)).filter
          (fun s => yearKey s == y)).isEmpty)).map (fun y => y ++ " Year")) ∧
    (∀ c, (headingTextsAt 2 (categorySectionPure l c)).Sublist
      (year_order.map (fun y => y ++ " Year"))) := by
  have hdoc := generate_doc_eq h
  subst hdoc
  refine ⟨rfl, headingTextsAt1_assembled l, ?_, ?_⟩
  · intro c
    exact headingTextsAt2_categorySectionPure l c
  · intro c
    rw [headingTextsAt2_categorySectionPure]
    exact (List.filter_sublist _).map _

/-- Witness for C3 at a concrete input. -/
theorem C3_ordering_witness :
    generate_student_document [demoSecondA, demoFirst] =
      .ok (assembled [demoSecondA, demoFirst]) ∧
    headingTextsAt 1 (assembled [demoSecondA, demoFirst]) =
      ["Hostel", "Dayscholar"].filter (fun c =>
        !([demoSecondA, demoFirst].filter
          (fun s => categoryOf s == c)).isEmpty) :=
  ⟨generate_ok (by decide),
    (C3_ordering [demoSecondA, demoFirst] (assembled [demoSecondA, demoFirst])
      (generate_ok (by decide))).2.1⟩

/-- C4: in every senior year group the level-3 department headings ascend
strictly (hence no duplicates), a department heading is present exactly
when the group contains a record of that department, and the registration
numbers rendered under the headings are, heading by heading, those of the
group's records of that department in their original relative order; the
senior renderer is what every non-First non-empty year section wraps. -/
theorem C4_department_sort (ylist : List Student) (es : List DocElem)
    (h : add_senior_sections ylist = .ok es) :
    (headingTextsAt 3 es).Sorted (fun a b => a < b) ∧
    (∀ d, d ∈ headingTextsAt 3 es ↔ ∃ s ∈ ylist, deptKey s = d) ∧
    renderedRegnos es = (headingTextsAt 3 es).flatMap (fun d =>
      (ylist.filter (fun s => deptKey s == d)).map regKey) ∧
    (∀ (bucket : List Student) (y : String), y ≠ "First" →
      ¬(bucket.filter (fun s => yearKey s == y)).isEmpty = true →
      yearSectionPure bucket y =
        DocElem.heading 2 ⟨y ++ " Year", false, some black⟩ ::
          seniorSection (bucket.filter (fun s => yearKey s == y))) := by
  have hr : ∀ s ∈ ylist, renderKeys s := add_senior_sections_ok_iff.mp ⟨es, h⟩
  have hes : es = seniorSection ylist := by
    have h2 := (add_senior_sections_ok hr).symm.trans h
    exact (Except.ok.inj h2).symm
  subst hes
  refine ⟨?_, ?_, ?_, ?_⟩
  · rw [headingTextsAt3_seniorSection]
    exact List.Sorted.lt_of_le (sorted_sortStrings _)
      (nodup_sortStrings (nodup_dictKeys deptKey ylist))
  · intro d
    rw [headingTextsAt3_seniorSection, mem_sortStrings, mem_dictKeys]
  · rw [headingTextsAt3_seniorSection, seniorSection,
      renderedRegnos_deptSections]
  · intro bucket y hy he
    rw [yearSectionPure, if_neg he, if_neg (by simp [hy])]

/-- Witness for C4 at a concrete two-department senior group. -/
theorem C4_department_sort_witness :
    add_senior_sections [demoSecondA, demoSecondB] =
      .ok (seniorSection [demoSecondA, demoSecondB]) ∧
    (headingTextsAt 3
      (seniorSection [demoSecondA, demoSecondB])).Sorted
        (fun a b => a < b) :=
  ⟨add_senior_sections_ok (by decide),
    (C4_department_sort [demoSecondA, demoSecondB] _
      (add_senior_sections_ok (by decide))).1⟩

/-- C5: sequence numbers restart at 1 in each grouping scope: the senior
list of a department group numbers its paragraphs 1, 2, ... from its first
student, and the first-year table numbers its data rows 1, 2, ... from its
first row; both renderers always start at 1 whatever was emitted before,
so numbering is never continued across scopes. -/
theorem C5_renumbering (l : List Student) (ps : List DocElem)
    (hps : add_senior_student_list l = .ok ps)
    (l2 : List Student) (es : List DocElem)
    (hes : add_first_year_table l2 = .ok es)
    (hne : ¬l2.isEmpty = true) :
    (ps.length = l.length ∧
      ∀ j (hj : j < l.length) (hj' : j < ps.length),
        ps.get ⟨j, hj'⟩ = DocElem.para ⟨seniorFormat,
          [⟨toString (j + 1) ++ ".\t" ++ nameKey (l.get ⟨j, hj⟩) ++ "\t",
            false, some black⟩,
           ⟨"–", false, some black⟩,
           ⟨"\t" ++ regKey (l.get ⟨j, hj⟩), false, some black⟩]⟩) ∧
    (∃ t : Table, es = [.table t] ∧ t.rows.length = l2.length ∧
      ∀ j (hj' : j < t.rows.length),
        (t.rows.get ⟨j, hj'⟩)[0]? =
          some ⟨toString (j + 1), false, some black⟩) := by
  constructor
  · have hk : ∀ s ∈ l,
        s.full_name.isSome ∧ s.registration_number.isSome :=
      seniorParagraphs_keys hps
    have heq : ps = seniorElems 1 l := by
      have h2 := (add_senior_student_list_ok hk).symm.trans hps
      exact (Except.ok.inj h2).symm
    subst heq
    refine ⟨seniorElems_length l 1, ?_⟩
    intro j hj hj'
    rw [seniorElems_get l 1 j hj hj']
    have h1 : 1 + j = j + 1 := by omega
    rw [h1]
    rfl
  · have hr : ∀ s ∈ l2, renderKeys s :=
      add_first_year_table_ok_iff.mp ⟨es, hes⟩
    have heq : es = tableSection l2 := by
      have h2 := (add_first_year_table_ok hr).symm.trans hes
      exact (Except.ok.inj h2).symm
    subst heq
    refine ⟨tableOf l2, by rw [tableSection, if_neg hne], ?_, ?_⟩
    · show (rowElems 1 (sortByDept l2)).length = l2.length
      rw [rowElems_length (sortByDept l2) 1]
      exact List.length_insertionSort deptLe l2
    · intro j hj'
      have hlen : (tableOf l2).rows.length = (sortByDept l2).length :=
        rowElems_length (sortByDept l2) 1
      have hj2 : j < (sortByDept l2).length := hlen ▸ hj'
      have hget : (tableOf l2).rows.get ⟨j, hj'⟩ =
          rowElem (1 + j) ((sortByDept l2).get ⟨j, hj2⟩) :=
        rowElems_get (sortByDept l2) 1 j hj2 hj'
      rw [hget]
      have h1 : 1 + j = j + 1 := by omega
      rw [h1]
      rfl

/-- Witness for C5 at a one-student senior scope and a one-student table
scope. -/
theorem C5_renumbering_witness :
    (seniorElems 1 [demoSecondA]).length = 1 ∧
    (∃ t : Table, tableSection [demoFirst] = [.table t] ∧
      t.rows.length = 1) := by
  have hc := C5_renumbering [demoSecondA] (seniorElems 1 [demoSecondA])
    (add_senior_student_list_ok (by decide)) [demoFirst]
    (tableSection [demoFirst]) (add_first_year_table_ok (by decide))
    (by decide)
  refine ⟨by simpa using hc.1.1, ?_⟩
  obtain ⟨t, h1, h2, _⟩ := hc.2
  exact ⟨t, h1, by simpa using h2⟩

/-- C6: a successful non-empty first-year table call yields exactly one
table: the fixed advisory column widths; a header row of the five bold
black labels; one data row per student, in the order of the stable sort by
department (sorted non-strictly ascending, ties keeping input order), each
row holding the 1-based number, full name, registration number, section or
the `N/A` placeholder, and department, all black. -/
theorem C6_first_year_table (l : List Student) (es : List DocElem)
    (hne : ¬l.isEmpty = true) (h : add_first_year_table l = .ok es) :
    ∃ t : Table, es = [.table t] ∧
      t.col_widths = [10, 200, 100, 10, 100] ∧
      t.header.map (fun r => (r.text, r.bold, r.color)) =
        [("S.No.", true, some black), ("Name", true, some black),
         ("SEC ID", true, some black), ("Section", true, some black),
         ("Department", true, some black)] ∧
      t.rows.length = l.length ∧
      ((sortByDept l).map deptKey).Sorted (fun a b => a ≤ b) ∧
      (∀ d, (sortByDept l).filter (fun s => deptKey s == d) =
        l.filter (fun s => deptKey s == d)) ∧
      (∀ j (hj : j < (sortByDept l).length) (hj' : j < t.rows.length),
        t.rows.get ⟨j, hj'⟩ =
          [⟨toString (j + 1), false, some black⟩,
           ⟨nameKey ((sortByDept l).get ⟨j, hj⟩), false, some black⟩,
           ⟨regKey ((sortByDept l).get ⟨j, hj⟩), false, some black⟩,
           ⟨((sortByDept l).get ⟨j, hj⟩).section_.getD "N/A", false,
             some black⟩,
           ⟨deptKey ((sortByDept l).get ⟨j, hj⟩), false, some black⟩]) := by
  have hr : ∀ s ∈ l, renderKeys s := add_first_year_table_ok_iff.mp ⟨es, h⟩
  have heq : es = tableSection l := by
    have h2 := (add_first_year_table_ok hr).symm.trans h
    exact (Except.ok.inj h2).symm
  subst heq
  refine ⟨tableOf l, by rw [tableSection, if_neg hne], rfl, by rfl, ?_,
    sortByDept_sorted l, fun d => sortByDept_filter l d, ?_⟩
  · show (rowElems 1 (sortByDept l)).length = l.length
    rw [rowElems_length (sortByDept l) 1]
    exact List.length_insertionSort deptLe l
  · intro j hj hj'
    have hget : (tableOf l).rows.get ⟨j, hj'⟩ =
        rowElem (1 + j) ((sortByDept l).get ⟨j, hj⟩) :=
      rowElems_get (sortByDept l) 1 j hj hj'
    rw [hget]
    have h1 : 1 + j = j + 1 := by omega
    rw [h1]
    rfl

/-- Witness for C6 at a concrete two-student first-year bucket. -/
theorem C6_first_year_table_witness :
    ¬([demoFirst, demoFirstB].isEmpty) = true ∧
    (∃ t : Table, tableSection [demoFirst, demoFirstB] = [.table t] ∧
      t.rows.length = 2) := by
  refine ⟨by decide, ?_⟩
  obtain ⟨t, h1, _, _, h4, _⟩ := C6_first_year_table
    [demoFirst, demoFirstB] (tableSection [demoFirst, demoFirstB])
    (by decide) (add_first_year_table_ok (by decide))
  exact ⟨t, h1, by simpa using h4⟩

/-- C9 fails on one glyph: the separator run of a senior paragraph holds
the en dash U+2013, not a hyphen glyph. -/
theorem C9_counterexample :
    add_senior_student_list [demoSecondA] =
      .ok [seniorElem 1 demoSecondA] ∧
    (∃ p : Paragraph, seniorElem 1 demoSecondA = .para p ∧
      (p.runs[1]?).map Run.text = some "–") ∧
    "–" ≠ "-" ∧ "–".length = 1 ∧ "–".data.map Char.toNat = [8211] :=
  ⟨by rfl, ⟨_, rfl, rfl⟩, by decide, by decide, by decide⟩

/-- C9 (amended): every student of a senior department group yields exactly
one paragraph of three separate runs at the three fixed tab stops
(`0.5"` left, `3.0"` center, `4.0"` left, with the hanging indent): the
numbered name segment, a lone en dash (U+2013) separator, and the tabbed
registration number — each run forced to black. -/
theorem C9_senior_paragraph (l : List Student) (ps : List DocElem)
    (h : add_senior_student_list l = .ok ps) :
    ps.length = l.length ∧
    ∀ j (hj : j < l.length) (hj' : j < ps.length),
      ps.get ⟨j, hj'⟩ = DocElem.para
        ⟨⟨50, -25, [⟨50, TabAlign.left⟩, ⟨300, TabAlign.center⟩,
          ⟨400, TabAlign.left⟩]⟩,
         [⟨toString (j + 1) ++ ".\t" ++ nameKey (l.get ⟨j, hj⟩) ++ "\t",
           false, some black⟩,
          ⟨"–", false, some black⟩,
          ⟨"\t" ++ regKey (l.get ⟨j, hj⟩), false, some black⟩]⟩ := by
  have hk : ∀ s ∈ l, s.full_name.isSome ∧ s.registration_number.isSome :=
    seniorParagraphs_keys h
  have heq : ps = seniorElems 1 l := by
    have h2 := (add_senior_student_list_ok hk).symm.trans h
    exact (Except.ok.inj h2).symm
  subst heq
  refine ⟨seniorElems_length l 1, ?_⟩
  intro j hj hj'
  rw [seniorElems_get l 1 j hj hj']
  have h1 : 1 + j = j + 1 := by omega
  rw [h1]
  rfl

/-- Witness for C9's amended theorem at a concrete input. -/
theorem C9_senior_paragraph_witness :
    add_senior_student_list [demoSecondA] =
      .ok (seniorElems 1 [demoSecondA]) ∧
    (seniorElems 1 [demoSecondA]).length = 1 :=
  ⟨add_senior_student_list_ok (by decide),
    ((C9_senior_paragraph [demoSecondA] _
      (add_senior_student_list_ok (by decide))).1).trans rfl⟩

end OdLetter
